import Mathlib

/-!
Verification development for the EZUI framework core: a shallow embedding of
the hand-written lexer (`src/parser/lexer.js`), the recursive-descent parser
(`src/parser/parser.js`), the compiler's selector scoping
(`src/parser/compiler.js`), and the reactive state container
(`src/runtime/reactivity.js`), together with theorems settling the frozen
claims about them.

Strings are modelled as `List Char` / `String`; machine integers do not occur
in the verified fragments.  JavaScript control flow is modelled with explicit
state passing; loops whose termination is not structural take a fuel
parameter and return `Option` (`none` = the fuel ran out, which for a loop
that provably makes no progress holds at every fuel and models divergence).
-/

/-! ### Character helpers

`'\0'` is what `getCurrentChar`/`peek` return at end of input. -/

def nullChar : Char := Char.ofNat 0

/-- JS `isWhitespace`: `char === ' ' || '\t' || '\n' || '\r'`. -/
def isWhitespaceChar (c : Char) : Bool :=
  c = ' ' || c = '\t' || c = '\n' || c = '\r'

/-- JS `isAlpha`: `/[a-zA-Z_]/.test(char)`. -/
def isAlphaChar (c : Char) : Bool :=
  ('a' ≤ c && c ≤ 'z') || ('A' ≤ c && c ≤ 'Z') || c = '_'

/-- JS `isDigit`: `/[0-9]/.test(char)`. -/
def isDigitChar (c : Char) : Bool :=
  '0' ≤ c && c ≤ '9'

def isAlphaNumericChar (c : Char) : Bool :=
  isAlphaChar c || isDigitChar c

/-- JS `isAlphaNumeric` applied to `content[i]` where `i` may be out of
range: `content[i]` is then `undefined`, and `/[a-zA-Z_]/.test(undefined)`
coerces `undefined` to the string `"undefined"`, which matches.  So a missing
character counts as alphanumeric. -/
def isAlphaNumericOpt : Option Char → Bool
  | none => true
  | some c => isAlphaNumericChar c

/-- JS `content.substring(start, stop)`. -/
def substringOf (l : List Char) (start stop : Nat) : String :=
  String.mk ((l.drop start).take (stop - start))

/-- JS `str.lastIndexOf(pat)`: the greatest index at which `pat` occurs
(`none` for JS `-1`).  For the empty pattern this is `l.length`, as in JS. -/
def lastIndexOfList (l pat : List Char) : Option Nat :=
  (List.range (l.length + 1)).foldl
    (fun acc i => if pat.isPrefixOf (l.drop i) then some i else acc) none

/-- JS `-1`-convention conversion used to compare `lastIndexOf` results. -/
def jsIndex (o : Option Nat) : Int :=
  (o.map Int.ofNat).getD (-1)

/-! ### Lexer (`src/parser/lexer.js`, class `EZUILexer`) -/

/-- A token as produced by `EZUILexer`.  `value` holds the token text; for
`NUMBER` tokens the source stores `parseFloat(value)` — the `numeric` flag
records that the value is a JS number (lexeme kept as the string scanned;
no verified claim inspects the floating-point value). -/
structure Token where
  type : String
  value : String
  numeric : Bool
  line : Nat
deriving DecidableEq, Repr

/-- The lexer's mutable fields: `content`, `position`, `tokens`. -/
structure LexState where
  content : List Char
  position : Nat
  tokens : List Token
deriving Repr

namespace EZUILexer

def isAtEnd (st : LexState) : Bool :=
  st.content.length ≤ st.position

def getCurrentChar (st : LexState) : Char :=
  if isAtEnd st then nullChar else st.content.getD st.position nullChar

/-- JS `peek(offset)`. -/
def peekOff (st : LexState) (offset : Nat) : Char :=
  if st.content.length ≤ st.position + offset then nullChar
  else st.content.getD (st.position + offset) nullChar

/-- JS `advance()`: a no-op at end of input. -/
def advance (st : LexState) : LexState :=
  if isAtEnd st then st else { st with position := st.position + 1 }

def getCurrentLine (st : LexState) : Nat :=
  1 + (st.content.take st.position).count '\n'

/-- `addToken(type, value)` with an explicit string value: pushes the token
without advancing. -/
def addTokenV (st : LexState) (ty val : String) : LexState :=
  { st with tokens := st.tokens ++ [⟨ty, val, false, getCurrentLine st⟩] }

/-- `addToken(type, parseFloat(value))` for `NUMBER` tokens. -/
def addTokenNum (st : LexState) (ty val : String) : LexState :=
  { st with tokens := st.tokens ++ [⟨ty, val, true, getCurrentLine st⟩] }

/-- `addToken(type)` with the `value = null` default: the value becomes the
current character, the position advances by one, and the line is computed
after that advance. -/
def addTokenChar (st : LexState) (ty : String) : LexState :=
  let v := getCurrentChar st
  let st1 := advance st
  { st1 with tokens := st1.tokens ++ [⟨ty, String.mk [v], false, getCurrentLine st1⟩] }

/-- `matchKeyword(keyword)`; see `isAlphaNumericOpt` for the out-of-range
`nextChar` case. -/
def matchKeyword (st : LexState) (kw : String) : Bool :=
  let start := st.position
  let endp := start + kw.length
  if st.content.length < endp then false
  else
    substringOf st.content start endp == kw
      && !(isAlphaNumericOpt (st.content.get? endp))

/-- `isInTemplate()`: compares the last occurrence of `"template {"` before
the cursor with the last `'}'` before the cursor. -/
def isInTemplate (st : LexState) : Bool :=
  let beforePosition := st.content.take st.position
  let lastTemplateStart := lastIndexOfList beforePosition ("template \x7b".toList)
  let lastTemplateEnd := lastIndexOfList beforePosition ['}']
  jsIndex lastTemplateStart > jsIndex lastTemplateEnd

/-- `skipLineComment`: `while (cur !== '\n' && !atEnd) advance`. -/
def skipLineComment : Nat → LexState → Option LexState
  | 0, _ => none
  | fuel+1, st =>
    if getCurrentChar st ≠ '\n' && !(isAtEnd st) then
      skipLineComment fuel (advance st)
    else some st

def skipBlockCommentLoop : Nat → LexState → Option LexState
  | 0, _ => none
  | fuel+1, st =>
    if !(isAtEnd st) then
      if getCurrentChar st = '*' && peekOff st 1 = '/' then
        some (advance (advance st))
      else skipBlockCommentLoop fuel (advance st)
    else some st

/-- `skipBlockComment`: skips `/*`, then scans for `*/`. -/
def skipBlockComment (fuel : Nat) (st : LexState) : Option LexState :=
  skipBlockCommentLoop fuel (advance (advance st))

/-- First loop of `scanComponentDeclaration`:
`while (cur !== ' ' && cur !== '>') advance`.  Unlike the later loops it has
no end-of-input check, and `advance` is a no-op at end of input, so at end of
input this loop never exits (it returns `none` at every fuel). -/
def scanCompDeclLoop1 : Nat → LexState → Option LexState
  | 0, _ => none
  | fuel+1, st =>
    if getCurrentChar st ≠ ' ' && getCurrentChar st ≠ '>' then
      scanCompDeclLoop1 fuel (advance st)
    else some st

/-- `while (cur === ' ') advance`. -/
def scanCompDeclLoop2 : Nat → LexState → Option LexState
  | 0, _ => none
  | fuel+1, st =>
    if getCurrentChar st = ' ' then scanCompDeclLoop2 fuel (advance st)
    else some st

/-- `while (cur !== '>' && cur !== '\0' && cur !== ' ') advance`. -/
def scanCompDeclLoop3 : Nat → LexState → Option LexState
  | 0, _ => none
  | fuel+1, st =>
    if getCurrentChar st ≠ '>' && getCurrentChar st ≠ nullChar
        && getCurrentChar st ≠ ' ' then
      scanCompDeclLoop3 fuel (advance st)
    else some st

/-- `while (cur !== '>' && cur !== '\0') advance`. -/
def scanCompDeclLoop4 : Nat → LexState → Option LexState
  | 0, _ => none
  | fuel+1, st =>
    if getCurrentChar st ≠ '>' && getCurrentChar st ≠ nullChar then
      scanCompDeclLoop4 fuel (advance st)
    else some st

def scanComponentDeclaration (fuel : Nat) (st : LexState) : Option LexState :=
  (scanCompDeclLoop1 fuel (advance st)).bind fun st1 =>
  (scanCompDeclLoop2 fuel st1).bind fun st2 =>
  let start := st2.position
  (scanCompDeclLoop3 fuel st2).bind fun st3 =>
  let componentName := substringOf st3.content start st3.position
  (scanCompDeclLoop4 fuel st3).bind fun st4 =>
  let st5 := if getCurrentChar st4 = '>' then advance st4 else st4
  some (addTokenV st5 "COMPONENT" componentName)

/-- `while (cur !== '>' && !atEnd) advance` (closing-tag loop). -/
def scanHtmlTagCloseLoop : Nat → LexState → Option LexState
  | 0, _ => none
  | fuel+1, st =>
    if getCurrentChar st ≠ '>' && !(isAtEnd st) then
      scanHtmlTagCloseLoop fuel (advance st)
    else some st

/-- Opening/self-closing tag loop.  The source threads `inAttribute` /
`quoteChar` through the loop, but the loop condition stops at any `'>'`
regardless of them. -/
def scanHtmlTagOpenLoop : Nat → Bool → Option Char → LexState → Option LexState
  | 0, _, _, _ => none
  | fuel+1, inAttribute, quoteChar, st =>
    if getCurrentChar st ≠ '>' && !(isAtEnd st) then
      let c := getCurrentChar st
      if !inAttribute && (c = '"' || c = '\'') then
        scanHtmlTagOpenLoop fuel true (some c) (advance st)
      else if inAttribute && some c = quoteChar then
        scanHtmlTagOpenLoop fuel false none (advance st)
      else
        scanHtmlTagOpenLoop fuel inAttribute quoteChar (advance st)
    else some st

def scanHtmlTag (fuel : Nat) (st : LexState) : Option LexState :=
  let start := st.position
  let st1 := advance st
  if getCurrentChar st1 = '/' then
    (scanHtmlTagCloseLoop fuel (advance st1)).bind fun st2 =>
    let st3 := if getCurrentChar st2 = '>' then advance st2 else st2
    some (addTokenV st3 "HTML_TAG" (substringOf st3.content start st3.position))
  else
    (scanHtmlTagOpenLoop fuel false none st1).bind fun st2 =>
    let st3 := if getCurrentChar st2 = '>' then advance st2 else st2
    some (addTokenV st3 "HTML_TAG" (substringOf st3.content start st3.position))

/-- `while (cur !== quote && !atEnd) { if (cur === '\\') advance; advance }`. -/
def scanStringLoop (quote : Char) : Nat → LexState → Option LexState
  | 0, _ => none
  | fuel+1, st =>
    if getCurrentChar st ≠ quote && !(isAtEnd st) then
      if getCurrentChar st = '\\' then
        scanStringLoop quote fuel (advance (advance st))
      else
        scanStringLoop quote fuel (advance st)
    else some st

def scanString (fuel : Nat) (st : LexState) : Option LexState :=
  let quote := getCurrentChar st
  let st1 := advance st
  let start := st1.position
  (scanStringLoop quote fuel st1).bind fun st2 =>
  let value := substringOf st2.content start st2.position
  some (addTokenV (advance st2) "STRING" value)

/-- Brace-depth loop of `scanInterpolation`: advances only while the depth
stays positive. -/
def scanInterpolationLoop : Nat → Nat → LexState → Option LexState
  | 0, _, _ => none
  | fuel+1, braceCount, st =>
    if braceCount > 0 && !(isAtEnd st) then
      let bc :=
        if getCurrentChar st = '{' then braceCount + 1
        else if getCurrentChar st = '}' then braceCount - 1
        else braceCount
      if bc > 0 then scanInterpolationLoop fuel bc (advance st)
      else scanInterpolationLoop fuel bc st
    else some st

def scanInterpolation (fuel : Nat) (st : LexState) : Option LexState :=
  let st1 := advance st
  let start := st1.position
  (scanInterpolationLoop fuel 1 st1).bind fun st2 =>
  let expression := substringOf st2.content start st2.position
  let st3 := addTokenV st2 "INTERPOLATION" expression
  some (if getCurrentChar st3 = '}' then advance st3 else st3)

/-- `while (isAlphaNumeric(cur) || cur === '-' || cur === '_') advance`. -/
def scanIdentifierLoop : Nat → LexState → Option LexState
  | 0, _ => none
  | fuel+1, st =>
    if isAlphaNumericChar (getCurrentChar st) || getCurrentChar st = '-'
        || getCurrentChar st = '_' then
      scanIdentifierLoop fuel (advance st)
    else some st

def scanIdentifier (fuel : Nat) (st : LexState) : Option LexState :=
  let start := st.position
  (scanIdentifierLoop fuel st).bind fun st1 =>
  some (addTokenV st1 "IDENTIFIER" (substringOf st1.content start st1.position))

def scanDigitsLoop : Nat → LexState → Option LexState
  | 0, _ => none
  | fuel+1, st =>
    if isDigitChar (getCurrentChar st) then scanDigitsLoop fuel (advance st)
    else some st

def scanNumber (fuel : Nat) (st : LexState) : Option LexState :=
  let start := st.position
  (scanDigitsLoop fuel st).bind fun st1 =>
  (if getCurrentChar st1 = '.' && isDigitChar (peekOff st1 1) then
    scanDigitsLoop fuel (advance st1)
  else some st1).bind fun st2 =>
  some (addTokenNum st2 "NUMBER" (substringOf st2.content start st2.position))

/-- The single-character operator table. -/
def operatorType : Char → Option String
  | '+' => some "PLUS"
  | '-' => some "MINUS"
  | '*' => some "MULTIPLY"
  | '/' => some "DIVIDE"
  | '=' => some "ASSIGN"
  | ':' => some "COLON"
  | ';' => some "SEMICOLON"
  | ',' => some "COMMA"
  | '.' => some "DOT"
  | '!' => some "NOT"
  | '&' => some "AND"
  | '|' => some "OR"
  | _ => none

/-- `scanOperator`.  The two-character operators call `addToken(type)` after
two advances, so the token value becomes the character *after* the operator
and the position advances past it.  An unrecognized character calls
`addToken('TEXT', char)` with an explicit value, which does not advance. -/
def scanOperator (st : LexState) : LexState :=
  let char := getCurrentChar st
  if char = '+' && peekOff st 1 = '+' then
    addTokenChar (advance (advance st)) "INCREMENT"
  else if char = '-' && peekOff st 1 = '-' then
    addTokenChar (advance (advance st)) "DECREMENT"
  else if char = '=' && peekOff st 1 = '=' then
    addTokenChar (advance (advance st)) "EQUAL"
  else if char = '!' && peekOff st 1 = '=' then
    addTokenChar (advance (advance st)) "NOT_EQUAL"
  else
    match operatorType char with
    | some ty => addTokenChar st ty
    | none => addTokenV st "TEXT" (String.mk [char])

/-- `scanToken`, with the source's branch order.  The interpolation branch
repeats the dead source branch: a `'{'` is already consumed by the
`LEFT_BRACE` branch above it. -/
def scanToken (fuel : Nat) (st : LexState) : Option LexState :=
  let char := getCurrentChar st
  if isWhitespaceChar char then some (advance st)
  else if char = '/' && peekOff st 1 = '/' then skipLineComment fuel st
  else if char = '/' && peekOff st 1 = '*' then skipBlockComment fuel st
  else if char = '<' then
    if ("component".toList).isPrefixOf
        ((st.content.drop (st.position + 1)).take 9) then
      scanComponentDeclaration fuel st
    else scanHtmlTag fuel st
  else if matchKeyword st "style" then some (addTokenChar st "STYLE_BLOCK")
  else if matchKeyword st "state" then some (addTokenChar st "STATE_BLOCK")
  else if matchKeyword st "template" then some (addTokenChar st "TEMPLATE_BLOCK")
  else if matchKeyword st "props" then some (addTokenChar st "PROPS_BLOCK")
  else if char = '{' then some (addTokenChar st "LEFT_BRACE")
  else if char = '}' then some (addTokenChar st "RIGHT_BRACE")
  else if char = '(' then some (addTokenChar st "LEFT_PAREN")
  else if char = ')' then some (addTokenChar st "RIGHT_PAREN")
  else if char = '"' || char = '\'' then scanString fuel st
  else if char = '{' && isInTemplate st then scanInterpolation fuel st
  else if isAlphaChar char then scanIdentifier fuel st
  else if isDigitChar char then scanNumber fuel st
  else some (scanOperator st)

/-- `tokenize`'s main loop: `while (position < content.length) scanToken()`. -/
def lexLoop : Nat → LexState → Option LexState
  | 0, _ => none
  | fuel+1, st =>
    if st.position < st.content.length then
      match scanToken fuel st with
      | some st2 => lexLoop fuel st2
      | none => none
    else some st

/-- `tokenize(content)`: runs the scan loop and appends the final EOF token.
`none` means the fuel ran out; a run that returns `none` at every fuel
diverges. -/
def tokenize (fuel : Nat) (content : String) : Option (List Token) :=
  (lexLoop fuel ⟨content.toList, 0, []⟩).map fun st =>
    st.tokens ++ [⟨"EOF", "", false, getCurrentLine st⟩]

end EZUILexer

/-! ### Association-list helpers

JS object property assignment `obj[k] = v`: an existing key keeps its
position and gets the new value, a new key is appended. -/

def setKey {α : Type} : List (String × α) → String → α → List (String × α)
  | [], k, v => [(k, v)]
  | (k0, v0) :: rest, k, v =>
    if k0 = k then (k0, v) :: rest else (k0, v0) :: setKey rest k v

def lookupOpt {α : Type} : List (String × α) → String → Option α
  | [], _ => none
  | (k0, v0) :: rest, k => if k0 = k then some v0 else lookupOpt rest k

/-- JS `String.prototype.trim` (whitespace restricted to the characters the
lexer's inputs contain). -/
def jsTrim (s : String) : String :=
  String.mk (((s.toList.dropWhile isWhitespaceChar).reverse.dropWhile
    isWhitespaceChar).reverse)

/-- JS `s.replace(pat, rep)` with a string pattern: replaces the first
occurrence only. -/
def replaceFirstList (pat rep : List Char) : List Char → List Char
  | [] => if pat.isPrefixOf ([] : List Char) then rep else []
  | c :: cs =>
    if pat.isPrefixOf (c :: cs) then rep ++ (c :: cs).drop pat.length
    else c :: replaceFirstList pat rep cs

def jsReplaceFirst (s pat rep : String) : String :=
  String.mk (replaceFirstList pat.toList rep.toList s.toList)

/-! ### Parser (`src/parser/parser.js`, class `EZUIParser`) -/

/-- A parsed state/props value.  `jnum` keeps the numeric token's lexeme
(the source stores the JS number `parseFloat(lexeme)`; no verified claim
inspects it). -/
inductive JValue where
  | jnum (lexeme : String)
  | jstr (s : String)
  | jbool (b : Bool)
  | jnull
  | jid (s : String)
  | jobj (fields : List (String × JValue))
deriving Repr

structure Interpolation where
  expression : String
  placeholder : String
  index : Nat
deriving Repr

structure EventBinding where
  event : String
  handler : String
  binding : String
deriving Repr

structure TemplateAST where
  html : String
  interpolations : List Interpolation
  events : List EventBinding
deriving Repr

/-- The `component` object built by `parse` (the constant empty `methods`
map is omitted). -/
structure ComponentAST where
  name : Option String
  style : Option (List (String × List (String × String)))
  state : List (String × JValue)
  props : List (String × JValue)
  template : Option TemplateAST
deriving Repr

/-- The parser's cursor state. -/
structure ParseState where
  tokens : List Token
  current : Nat
deriving Repr

/-- A thrown parse error: the message and the parser state at the throw
(the `parse` wrapper reads the current token's line from it). -/
structure PError where
  message : String
  state : ParseState
deriving Repr

/-- Result of a fueled parser routine: success with the rest state, a thrown
error, or fuel exhaustion (`out` — the routine did not return). -/
inductive PRes (α : Type) where
  | ok : α → ParseState → PRes α
  | err : PError → PRes α
  | out : PRes α
deriving Repr

namespace EZUIParser

def eofToken : Token := ⟨"EOF", "", false, 0⟩

/-- `peek()`: `this.tokens[this.current] || {type:'EOF', value:'', line:0}`. -/
def peekT (st : ParseState) : Token :=
  st.tokens.getD st.current eofToken

def isAtEndP (st : ParseState) : Bool :=
  st.tokens.length ≤ st.current || (peekT st).type = "EOF"

/-- `advance()`: increments unless at end, returns `tokens[current - 1]`. -/
def advanceT (st : ParseState) : Token × ParseState :=
  let st1 := if isAtEndP st then st else { st with current := st.current + 1 }
  (st1.tokens.getD (st1.current - 1) eofToken, st1)

def checkT (st : ParseState) (ty : String) : Bool :=
  if isAtEndP st then false else (peekT st).type = ty

/-- `consume(type, message)`. -/
def consumeT (st : ParseState) (ty message : String) : PRes Token :=
  if checkT st ty then
    let (t, st1) := advanceT st
    .ok t st1
  else .err ⟨message ++ ". Got " ++ (peekT st).type ++ " instead.", st⟩

/-- `parseComponentName()`: `advance().value.replace('.ezu', '')`. -/
def parseComponentName (st : ParseState) : String × ParseState :=
  let (token, st1) := advanceT st
  (jsReplaceFirst token.value ".ezu" "", st1)

/-- Selector accumulation loop of `parseSelector`.  For tokens whose JS
value is a number the string concatenation coerces it; modelled by the
lexeme. -/
def parseSelectorLoop : Nat → ParseState → String → PRes String
  | 0, _, _ => .out
  | fuel+1, st, acc =>
    if !(checkT st "LEFT_BRACE") && !(isAtEndP st) then
      let (token, st1) := advanceT st
      let piece :=
        if token.type = "IDENTIFIER" || token.type = "TEXT" then token.value
        else if token.type = "COLON" then ":"
        else if token.type = "DOT" then "."
        else token.value
      parseSelectorLoop fuel st1 (acc ++ piece)
    else .ok acc st

def parseSelector (fuel : Nat) (st : ParseState) : PRes String :=
  match parseSelectorLoop fuel st "" with
  | .ok selector st1 => .ok (jsTrim selector) st1
  | .err e => .err e
  | .out => .out

/-- Property-name loop of `parseStyleProperty` (tokens other than
identifier/text/minus are silently dropped). -/
def stylePropNameLoop : Nat → ParseState → String → PRes String
  | 0, _, _ => .out
  | fuel+1, st, acc =>
    if !(checkT st "COLON") && !(isAtEndP st) then
      let (token, st1) := advanceT st
      let acc1 :=
        if token.type = "IDENTIFIER" || token.type = "TEXT" then acc ++ token.value
        else if token.type = "MINUS" then acc ++ "-"
        else acc
      stylePropNameLoop fuel st1 acc1
    else .ok acc st

/-- Property-value loop of `parseStyleProperty`; a token whose value is a
newline breaks the loop after being consumed. -/
def stylePropValueLoop : Nat → ParseState → String → PRes String
  | 0, _, _ => .out
  | fuel+1, st, acc =>
    if !(checkT st "SEMICOLON") && !(checkT st "RIGHT_BRACE")
        && !(isAtEndP st) then
      let (token, st1) := advanceT st
      if token.value = "\n" then .ok acc st1
      else
        let acc1 :=
          if token.type = "STRING" then acc ++ "\"" ++ token.value ++ "\""
          else if token.type = "NUMBER" then acc ++ token.value
          else if token.type = "IDENTIFIER" || token.type = "TEXT" then
            acc ++ token.value
          else acc ++ token.value
        stylePropValueLoop fuel st1 acc1
    else .ok acc st

def parseStyleProperty (fuel : Nat) (st : ParseState) :
    PRes (Option (String × String)) :=
  if checkT st "RIGHT_BRACE" then .ok none st
  else
    match stylePropNameLoop fuel st "" with
    | .err e => .err e
    | .out => .out
    | .ok propertyName st1 =>
      let st2 := if checkT st1 "COLON" then (advanceT st1).2 else st1
      match stylePropValueLoop fuel st2 "" with
      | .err e => .err e
      | .out => .out
      | .ok propertyValue st3 =>
        let st4 := if checkT st3 "SEMICOLON" then (advanceT st3).2 else st3
        .ok (some (jsTrim propertyName, jsTrim propertyValue)) st4

def styleRuleLoop : Nat → ParseState → List (String × String) →
    PRes (List (String × String))
  | 0, _, _ => .out
  | fuel+1, st, properties =>
    if !(checkT st "RIGHT_BRACE") && !(isAtEndP st) then
      match parseStyleProperty fuel st with
      | .err e => .err e
      | .out => .out
      | .ok none st1 => styleRuleLoop fuel st1 properties
      | .ok (some p) st1 => styleRuleLoop fuel st1 (setKey properties p.1 p.2)
    else .ok properties st

/-- `parseStyleRule()`; returns `none` when the selector is empty (the JS
falsy check), without consuming anything. -/
def parseStyleRule (fuel : Nat) (st : ParseState) :
    PRes (Option (String × List (String × String))) :=
  match parseSelector fuel st with
  | .err e => .err e
  | .out => .out
  | .ok selector st1 =>
    if selector = "" then .ok none st1
    else
      match consumeT st1 "LEFT_BRACE" "Expected \"\x7b\" after selector" with
      | .err e => .err e
      | .out => .out
      | .ok _ st2 =>
        match styleRuleLoop fuel st2 [] with
        | .err e => .err e
        | .out => .out
        | .ok properties st3 =>
          match consumeT st3 "RIGHT_BRACE"
              "Expected \"\x7d\" after style properties" with
          | .err e => .err e
          | .out => .out
          | .ok _ st4 => .ok (some (selector, properties)) st4

def styleBlockLoop : Nat → ParseState →
    List (String × List (String × String)) →
    PRes (List (String × List (String × String)))
  | 0, _, _ => .out
  | fuel+1, st, styles =>
    if !(checkT st "RIGHT_BRACE") && !(isAtEndP st) then
      match parseStyleRule fuel st with
      | .err e => .err e
      | .out => .out
      | .ok none st1 => styleBlockLoop fuel st1 styles
      | .ok (some rule) st1 =>
        styleBlockLoop fuel st1 (setKey styles rule.1 rule.2)
    else .ok styles st

def parseStyleBlock (fuel : Nat) (st : ParseState) :
    PRes (List (String × List (String × String))) :=
  let (_, st1) := advanceT st
  match consumeT st1 "LEFT_BRACE" "Expected \"\x7b\" after style" with
  | .err e => .err e
  | .out => .out
  | .ok _ st2 =>
    match styleBlockLoop fuel st2 [] with
    | .err e => .err e
    | .out => .out
    | .ok styles st3 =>
      match consumeT st3 "RIGHT_BRACE" "Expected \"\x7d\" after style block" with
      | .err e => .err e
      | .out => .out
      | .ok _ st4 => .ok styles st4

mutual

/-- `parseValue()`. -/
def parseValue : Nat → ParseState → PRes JValue
  | 0, _ => .out
  | fuel+1, st =>
    let token := peekT st
    if token.type = "NUMBER" then .ok (.jnum token.value) (advanceT st).2
    else if token.type = "STRING" then .ok (.jstr token.value) (advanceT st).2
    else if token.type = "IDENTIFIER" then
      let st1 := (advanceT st).2
      if token.value = "true" then .ok (.jbool true) st1
      else if token.value = "false" then .ok (.jbool false) st1
      else if token.value = "null" then .ok .jnull st1
      else .ok (.jid token.value) st1
    else if token.type = "LEFT_BRACE" then parseObject fuel st
    else .err ⟨"Unexpected token type: " ++ token.type, st⟩

/-- `parseObject()`. -/
def parseObject : Nat → ParseState → PRes JValue
  | 0, _ => .out
  | fuel+1, st =>
    match consumeT st "LEFT_BRACE" "Expected \"\x7b\"" with
    | .err e => .err e
    | .out => .out
    | .ok _ st1 =>
      match parseObjectLoop fuel st1 [] with
      | .err e => .err e
      | .out => .out
      | .ok obj st2 =>
        match consumeT st2 "RIGHT_BRACE" "Expected \"\x7d\"" with
        | .err e => .err e
        | .out => .out
        | .ok _ st3 => .ok (.jobj obj) st3

def parseObjectLoop : Nat → ParseState → List (String × JValue) →
    PRes (List (String × JValue))
  | 0, _, _ => .out
  | fuel+1, st, obj =>
    if !(checkT st "RIGHT_BRACE") && !(isAtEndP st) then
      let (key, st1) := advanceT st
      if key.type ≠ "IDENTIFIER" && key.type ≠ "STRING" then
        .err ⟨"Expected property name", st1⟩
      else
        match consumeT st1 "COLON" "Expected \":\" after property name" with
        | .err e => .err e
        | .out => .out
        | .ok _ st2 =>
          match parseValue fuel st2 with
          | .err e => .err e
          | .out => .out
          | .ok value st3 =>
            let st4 := if checkT st3 "COMMA" then (advanceT st3).2 else st3
            parseObjectLoop fuel st4 (setKey obj key.value value)
    else .ok obj st

end

/-- `parseStateProperty()` (also used for props). -/
def parseStateProperty (fuel : Nat) (st : ParseState) :
    PRes (Option (String × JValue)) :=
  if checkT st "RIGHT_BRACE" then .ok none st
  else
    let (nameToken, st1) := advanceT st
    if nameToken.type ≠ "IDENTIFIER" then
      .err ⟨"Expected property name, got " ++ nameToken.type, st1⟩
    else
      match consumeT st1 "COLON" "Expected \":\" after property name" with
      | .err e => .err e
      | .out => .out
      | .ok _ st2 =>
        match parseValue fuel st2 with
        | .err e => .err e
        | .out => .out
        | .ok value st3 =>
          let st4 := if checkT st3 "SEMICOLON" then (advanceT st3).2 else st3
          .ok (some (nameToken.value, value)) st4

def stateBlockLoop : Nat → ParseState → List (String × JValue) →
    PRes (List (String × JValue))
  | 0, _, _ => .out
  | fuel+1, st, state =>
    if !(checkT st "RIGHT_BRACE") && !(isAtEndP st) then
      match parseStateProperty fuel st with
      | .err e => .err e
      | .out => .out
      | .ok none st1 => stateBlockLoop fuel st1 state
      | .ok (some p) st1 => stateBlockLoop fuel st1 (setKey state p.1 p.2)
    else .ok state st

/-- `parseStateBlock()`. -/
def parseStateBlock (fuel : Nat) (st : ParseState) :
    PRes (List (String × JValue)) :=
  let (_, st1) := advanceT st
  match consumeT st1 "LEFT_BRACE" "Expected \"\x7b\" after state" with
  | .err e => .err e
  | .out => .out
  | .ok _ st2 =>
    match stateBlockLoop fuel st2 [] with
    | .err e => .err e
    | .out => .out
    | .ok state st3 =>
      match consumeT st3 "RIGHT_BRACE" "Expected \"\x7d\" after state block" with
      | .err e => .err e
      | .out => .out
      | .ok _ st4 => .ok state st4

/-- `parsePropsBlock()` (same pair syntax as state). -/
def parsePropsBlock (fuel : Nat) (st : ParseState) :
    PRes (List (String × JValue)) :=
  let (_, st1) := advanceT st
  match consumeT st1 "LEFT_BRACE" "Expected \"\x7b\" after props" with
  | .err e => .err e
  | .out => .out
  | .ok _ st2 =>
    match stateBlockLoop fuel st2 [] with
    | .err e => .err e
    | .out => .out
    | .ok props st3 =>
      match consumeT st3 "RIGHT_BRACE" "Expected \"\x7d\" after props block" with
      | .err e => .err e
      | .out => .out
      | .ok _ st4 => .ok props st4

/-- The interpolation regex scan `/\x7b([^\x7d]+)\x7d/g`: finds
non-overlapping `{expr}` spans with a non-empty body. -/
def findInterps : Nat → List Char → Nat → List Interpolation
  | 0, _, _ => []
  | _+1, [], _ => []
  | fuel+1, c :: rest, i =>
    if c = '{' then
      let body := rest.takeWhile (fun d => d ≠ '}')
      if body.length > 0 && body.length < rest.length then
        ⟨jsTrim (String.mk body), "\x7b" ++ String.mk body ++ "\x7d", i⟩ ::
          findInterps fuel (rest.drop (body.length + 1)) (i + body.length + 2)
      else findInterps fuel rest (i + 1)
    else findInterps fuel rest (i + 1)

/-- The event regex scan `/on:(\w+)=["']([^"']+)["']/g` (either quote
character may close either opening quote, as in the character classes). -/
def findEvents : Nat → List Char → List EventBinding
  | 0, _ => []
  | _+1, [] => []
  | fuel+1, c :: rest =>
    if ('o' :: 'n' :: ':' :: []).isPrefixOf (c :: rest) then
      let afterOn := rest.drop 2
      let w := afterOn.takeWhile isAlphaNumericChar
      let afterW := afterOn.drop w.length
      match w, afterW with
      | _ :: _, '=' :: q :: rest2 =>
        if q = '"' || q = '\'' then
          let body := rest2.takeWhile (fun d => d ≠ '"' && d ≠ '\'')
          if body.length > 0 && body.length < rest2.length then
            ⟨String.mk w, String.mk body,
              "on:" ++ String.mk w ++ "=" ++ String.mk [q] ++ String.mk body
                ++ String.mk [rest2.getD body.length nullChar]⟩ ::
              findEvents fuel (rest2.drop (body.length + 1))
          else findEvents fuel rest
        else findEvents fuel rest
      | _, _ => findEvents fuel rest
    else findEvents fuel rest

/-- `parseTemplate(content)`. -/
def parseTemplate (content : String) : TemplateAST :=
  ⟨content, findInterps (content.length + 1) content.toList 0,
    findEvents (content.length + 1) content.toList⟩

/-- Re-serialization loop of `parseTemplateBlock`.  The final `else` branch
appends `token.value` only when it is a non-empty string (`NUMBER` tokens
hold a JS number and are dropped). -/
def templateBlockLoop : Nat → ParseState → Nat → String → PRes String
  | 0, _, _, _ => .out
  | fuel+1, st, braceCount, acc =>
    if braceCount > 0 && !(isAtEndP st) then
      let (token, st1) := advanceT st
      if token.type = "LEFT_BRACE" then
        templateBlockLoop fuel st1 (braceCount + 1) (acc ++ "\x7b")
      else if token.type = "RIGHT_BRACE" then
        let bc := braceCount - 1
        templateBlockLoop fuel st1 bc (if bc > 0 then acc ++ "\x7d" else acc)
      else if token.type = "HTML_TAG" then
        templateBlockLoop fuel st1 braceCount (acc ++ token.value)
      else if token.type = "INTERPOLATION" then
        templateBlockLoop fuel st1 braceCount
          (acc ++ "\x7b" ++ token.value ++ "\x7d")
      else if token.type = "STRING" then
        templateBlockLoop fuel st1 braceCount
          (acc ++ "\"" ++ token.value ++ "\"")
      else if token.type = "IDENTIFIER" || token.type = "TEXT" then
        templateBlockLoop fuel st1 braceCount (acc ++ token.value)
      else if !token.numeric && token.value ≠ "" then
        templateBlockLoop fuel st1 braceCount (acc ++ token.value)
      else
        templateBlockLoop fuel st1 braceCount acc
    else .ok acc st

/-- `parseTemplateBlock()`. -/
def parseTemplateBlock (fuel : Nat) (st : ParseState) : PRes TemplateAST :=
  let (_, st1) := advanceT st
  match consumeT st1 "LEFT_BRACE" "Expected \"\x7b\" after template" with
  | .err e => .err e
  | .out => .out
  | .ok _ st2 =>
    match templateBlockLoop fuel st2 1 "" with
    | .err e => .err e
    | .out => .out
    | .ok content st3 => .ok (parseTemplate (jsTrim content)) st3

/-- The dispatch loop of `parse` (unrecognized tokens are skipped). -/
def parseLoop : Nat → ParseState → ComponentAST → PRes ComponentAST
  | 0, _, _ => .out
  | fuel+1, st, component =>
    if !(isAtEndP st) then
      let token := peekT st
      if token.type = "COMPONENT" then
        let (nm, st1) := parseComponentName st
        parseLoop fuel st1 { component with name := some nm }
      else if token.type = "STYLE_BLOCK" then
        match parseStyleBlock fuel st with
        | .err e => .err e
        | .out => .out
        | .ok styles st1 =>
          parseLoop fuel st1 { component with style := some styles }
      else if token.type = "STATE_BLOCK" then
        match parseStateBlock fuel st with
        | .err e => .err e
        | .out => .out
        | .ok state st1 => parseLoop fuel st1 { component with state := state }
      else if token.type = "PROPS_BLOCK" then
        match parsePropsBlock fuel st with
        | .err e => .err e
        | .out => .out
        | .ok props st1 => parseLoop fuel st1 { component with props := props }
      else if token.type = "TEMPLATE_BLOCK" then
        match parseTemplateBlock fuel st with
        | .err e => .err e
        | .out => .out
        | .ok tmpl st1 =>
          parseLoop fuel st1 { component with template := some tmpl }
      else
        parseLoop fuel (advanceT st).2 component
    else .ok component st

/-- `parse(content)`: tokenizes, runs the dispatch loop, and wraps a thrown
error as `Parse error: <message> at line <line of the current token>`.
`none` means a loop did not return within the fuel. -/
def parse (fuel : Nat) (content : String) : Option (Except String ComponentAST) :=
  match EZUILexer.tokenize fuel content with
  | none => none
  | some toks =>
    match parseLoop fuel ⟨toks, 0⟩ ⟨none, none, [], [], none⟩ with
    | .ok component _ => some (.ok component)
    | .err e =>
      some (.error ("Parse error: " ++ e.message ++ " at line "
        ++ toString (peekT e.state).line))
    | .out => none

end EZUIParser

/-! ### Compiler selector scoping (`src/parser/compiler.js`,
`scopeSelector` inside the generated component class) -/

/-- JS `str.split(':')`. -/
def splitOnColon : List Char → List (List Char)
  | [] => [[]]
  | c :: cs =>
    if c = ':' then [] :: splitOnColon cs
    else
      match splitOnColon cs with
      | [] => [[c]]
      | p :: ps => (c :: p) :: ps

/-- The selector text before the first `':'`. -/
def beforeFirstColon (l : List Char) : List Char :=
  l.takeWhile (fun c => c ≠ ':')

/-- The selector text after the first `':'` (everything, further colons
included). -/
def afterFirstColon (l : List Char) : List Char :=
  l.drop ((beforeFirstColon l).length + 1)

/-- The selector text between the first and the second `':'`. -/
def betweenFirstColons (l : List Char) : List Char :=
  (afterFirstColon l).takeWhile (fun c => c ≠ ':')

namespace EZUICompiler

/-- `scopeSelector(selector, scopeId)`: `:host`-prefixed selectors pass
through; a selector containing `':'` is split on `':'` and only the first
two parts are kept (`const [base, pseudo] = selector.split(':')`); otherwise
the scope class is prefixed. -/
def scopeSelector (selector scopeId : String) : String :=
  if (":host".toList).isPrefixOf selector.toList then selector
  else if selector.toList.contains ':' then
    let parts := splitOnColon selector.toList
    let base := String.mk (parts.getD 0 [])
    let pseudo := String.mk (parts.getD 1 [])
    "." ++ scopeId ++ " " ++ jsTrim base ++ ":" ++ jsTrim pseudo
  else "." ++ scopeId ++ " " ++ selector

/-- The rewrite the claim describes, word for word: scope class, then the
part before the first `':'`, then `':'` and *everything* after the first
`':'`, all of it preserved.  Stated for comparison with `scopeSelector`. -/
def specScopeSelector (selector scopeId : String) : String :=
  if (":host".toList).isPrefixOf selector.toList then selector
  else if selector.toList.contains ':' then
    "." ++ scopeId ++ " " ++ String.mk (beforeFirstColon selector.toList)
      ++ ":" ++ String.mk (afterFirstColon selector.toList)
  else "." ++ scopeId ++ " " ++ selector

end EZUICompiler

/-! ### Reactive state (`src/runtime/reactivity.js`, class `ReactiveState`)

State values are the JS primitives the verified claims use (`vundefined` models
reading an absent key; object/array values, whose JS semantics is
reference-based, do not occur in any claim).  With primitive values the
source's `_cloneDeep` is its first line, `return obj`.

The microtask model: `update`'s post-`await` work (with synchronous
middleware), `notifyListeners`' deferred delivery and `scheduleUpdate`'s
flush all run as FIFO microtasks after the current synchronous turn.  Each
operation is modelled by its full effect in call order plus the microtask
jobs it enqueues; `drainJobs` then runs the queue.  One `Notification` is
one delivery round to the listener set. -/

inductive Value where
  | vnum (n : Int)
  | vstr (s : String)
  | vbool (b : Bool)
  | vnull
  | vundefined
deriving DecidableEq, Repr

/-- `_cloneDeep` on a primitive: `if (obj === null || typeof obj !== 'object')
return obj`. -/
def cloneDeep (v : Value) : Value := v

/-- A computed property's `computeFn`, modelled as an expression over the
state read through the reactive proxy (each `readKey` is a proxy `get`,
which is what records dependencies). -/
inductive CompExp where
  | lit (v : Value)
  | readKey (k : String)
  | add (a b : CompExp)
deriving Repr

/-- JS `+` restricted to numbers (the computed functions in the claims
read and add numeric state). -/
def addVal : Value → Value → Value
  | .vnum a, .vnum b => .vnum (a + b)
  | _, _ => .vundefined

/-- One entry of the `validation` map: the predicate may itself throw
(`Except.error`), which `validateProperty` turns into a failure. -/
structure VRule where
  validator : Value → Except String Bool
  errorMessage : String

/-- A middleware stage: receives `(property, value, oldValue, data)`;
may throw, and a non-`undefined` result (`some`) replaces the value. -/
def MW : Type :=
  String → Value → Value → List (String × Value) → Except String (Option Value)

/-- A history entry (`timestamp: Date.now()` omitted: wall-clock,
unobserved by every claim). -/
structure HistEntry where
  property : String
  oldValue : Value
  newValue : Value
deriving DecidableEq, Repr

/-- An element of `batchedUpdates` / of a change list passed to listeners. -/
structure Change where
  property : String
  value : Value
  oldValue : Value
deriving DecidableEq, Repr

/-- The mutable fields of a `ReactiveState` instance.  `updateOverridden`
records that `transaction` has replaced `this.update` with its collecting
closure and not (yet) restored it.  (`initialState`, `isDebugMode` and the
listener set are omitted: `reset`/debug are uncalled by the claims, and
deliveries to the listener set are modelled as emitted notifications.) -/
structure ReactiveState where
  data : List (String × Value)
  computedDefs : List (String × CompExp)
  computedCache : List (String × Value)
  dependencies : List (String × List String)
  validation : List (String × List VRule)
  middleware : List MW
  history : List HistEntry
  maxHistorySize : Nat
  batchedUpdates : List Change
  updateScheduled : Bool
  currentComputed : Option String
  updateOverridden : Bool

/-- `createState(initialState)` = `new ReactiveState(initialState)`. -/
def createState (initialState : List (String × Value)) : ReactiveState :=
  ⟨initialState, [], [], [], [], [], [], 50, [], false, none, false⟩

/-- A microtask: a deferred listener delivery (`notifyListeners`) or the
batched flush (`scheduleUpdate`). -/
inductive Job where
  | deliver (changes : List Change)
  | flushJob
deriving DecidableEq, Repr

/-- One delivery round to the listener set: the change list passed along
with the data map. -/
abbrev Notification := List Change

namespace ReactiveState

/-- Reading `this.data[k]`: `undefined` when absent. -/
def lookupVal (d : List (String × Value)) (k : String) : Value :=
  (lookupOpt d k).getD .vundefined

def firstFailure : List VRule → Value → Option String
  | [], _ => none
  | r :: rest, v =>
    match r.validator v with
    | .ok true => firstFailure rest v
    | .ok false => some r.errorMessage
    | .error m => some ("Validation error: " ++ m)

/-- `validateProperty(property, value)`: `none` = valid, `some msg` =
the first failing (or throwing) validator's message. -/
def validateProperty (st : ReactiveState) (property : String) (value : Value) :
    Option String :=
  match lookupOpt st.validation property with
  | none => none
  | some validators => firstFailure validators value

/-- `applyMiddleware(property, value, oldValue)`: each stage sees the
original `oldValue` and the value processed so far; an `undefined` result
keeps the value. -/
def applyMiddleware : List MW → String → Value → Value →
    List (String × Value) → Except String Value
  | [], _, v, _, _ => .ok v
  | mw :: rest, k, v, oldValue, data =>
    match mw k v oldValue data with
    | .error e => .error e
    | .ok none => applyMiddleware rest k v oldValue data
    | .ok (some v2) => applyMiddleware rest k v2 oldValue data

/-- `update(property, value)`: validate, middleware, history (evicting the
oldest entry at capacity), write, batch, schedule.  Returns the rejection
(if any), the new state and the enqueued microtasks. -/
def update (st : ReactiveState) (property : String) (value : Value) :
    Option String × ReactiveState × List Job :=
  match validateProperty st property value with
  | some err =>
    (some ("Validation failed for " ++ property ++ ": " ++ err), st, [])
  | none =>
    let oldValue := lookupVal st.data property
    match applyMiddleware st.middleware property value oldValue st.data with
    | .error e => (some e, st, [])
    | .ok processedValue =>
      let h1 :=
        if st.maxHistorySize ≤ st.history.length then st.history.drop 1
        else st.history
      let st1 := { st with
        history := h1 ++ [⟨property, cloneDeep oldValue, cloneDeep processedValue⟩],
        data := setKey st.data property processedValue,
        batchedUpdates :=
          st.batchedUpdates ++ [⟨property, processedValue, oldValue⟩] }
      if st1.updateScheduled then (none, st1, [])
      else (none, { st1 with updateScheduled := true }, [Job.flushJob])

/-- The collecting closure `transaction` installs as `this.update`: pushes
the write into the (captured) updates array and writes the data map —
no validation, middleware, history, or scheduling. -/
def overriddenUpdate (st : ReactiveState) (property : String) (value : Value) :
    Option String × ReactiveState × List Job :=
  (none, { st with data := setKey st.data property value }, [])

/-- A call of `state.update(...)`, dispatching to whichever function is
currently installed as `this.update`. -/
def callUpdate (st : ReactiveState) (property : String) (value : Value) :
    Option String × ReactiveState × List Job :=
  if st.updateOverridden then overriddenUpdate st property value
  else update st property value

def updateBatchLoop : ReactiveState → List (String × Value) → List Change →
    ReactiveState × List Change
  | st, [], changed => (st, changed)
  | st, (k, v) :: rest, changed =>
    let oldValue := lookupVal st.data k
    if oldValue ≠ v then
      updateBatchLoop { st with data := setKey st.data k v } rest
        (changed ++ [⟨k, v, oldValue⟩])
    else updateBatchLoop st rest changed

/-- `updateBatch(updates)`: writes the value-distinct subset and notifies
listeners once with the whole changed set (`notifyListeners` defers the
delivery to a microtask). -/
def updateBatch (st : ReactiveState) (updates : List (String × Value)) :
    ReactiveState × List Job :=
  let r := updateBatchLoop st updates []
  if r.2 ≠ [] then (r.1, [Job.deliver r.2]) else (r.1, [])

/-- `invalidateComputedProperties(changedProperty)`: deletes every cached
computed whose recorded dependency set contains the changed key. -/
def invalidateComputedProperties (st : ReactiveState) (changedProperty : String) :
    ReactiveState :=
  { st with computedCache := st.computedCache.filter (fun nc =>
      match lookupOpt st.dependencies nc.1 with
      | some deps => !(deps.contains changedProperty)
      | none => true) }

/-- `flushUpdates()`: an empty batch returns early (leaving
`updateScheduled` as it was); otherwise delivers the batch to the listeners
synchronously and invalidates affected computed properties. -/
def flushUpdates (st : ReactiveState) : ReactiveState × List Notification :=
  if st.batchedUpdates = [] then (st, [])
  else
    let updates := st.batchedUpdates
    let st1 := { st with batchedUpdates := [], updateScheduled := false }
    let st2 := updates.foldl
      (fun s u => invalidateComputedProperties s u.property) st1
    (st2, [updates])

/-- `computed(name, computeFn)`: installs the getter
(`Object.defineProperty(this.data, name, ...)`). -/
def computed (st : ReactiveState) (name : String) (computeFn : CompExp) :
    ReactiveState :=
  { st with computedDefs := setKey st.computedDefs name computeFn }

/-- The proxy `get` trap's dependency tracking: while a computed is the
"currently evaluating" one, every key read is added to its dependency set
(a JS `Set`: insertion-ordered, duplicate-free, never cleared). -/
def recordDependency (st : ReactiveState) (property : String) : ReactiveState :=
  match st.currentComputed with
  | none => st
  | some name =>
    let deps := (lookupOpt st.dependencies name).getD []
    if deps.contains property then st
    else { st with dependencies := setKey st.dependencies name (deps ++ [property]) }

/-- Evaluating a `computeFn` against the proxy: each `readKey` is a proxy
`get` (dependency recording + raw data read). -/
def evalExp : CompExp → ReactiveState → Value × ReactiveState
  | .lit v, st => (v, st)
  | .readKey k, st => (lookupVal st.data k, recordDependency st k)
  | .add a b, st =>
    let (va, st1) := evalExp a st
    let (vb, st2) := evalExp b st1
    (addVal va vb, st2)

/-- The value a `computeFn` denotes over a fixed data map (used only to
state theorems; `evalExp` is the executable semantics). -/
def evalPure : CompExp → List (String × Value) → Value
  | .lit v, _ => v
  | .readKey k, d => lookupVal d k
  | .add a b, d => addVal (evalPure a d) (evalPure b d)

/-- The keys a `computeFn` reads. -/
def readsOf : CompExp → List String
  | .lit _ => []
  | .readKey k => [k]
  | .add a b => readsOf a ++ readsOf b

/-- Reading `this.data[name]`: for a computed property this runs the
installed getter (memoized; on a miss it marks `name` as the currently
evaluating computed, runs `computeFn`, clears the marker — to `null`, not
to the previous value — and fills the cache). -/
def readComputed (st : ReactiveState) (name : String) : Value × ReactiveState :=
  match lookupOpt st.computedDefs name with
  | none => (lookupVal st.data name, st)
  | some computeFn =>
    match lookupOpt st.computedCache name with
    | some v => (v, st)
    | none =>
      let st1 := { st with currentComputed := some name }
      let (value, st2) := evalExp computeFn st1
      let st3 := { st2 with
        currentComputed := none
        computedCache := setKey st2.computedCache name value }
      (value, st3)

/-- The recorded dependency keys of a computed property. -/
def depsOf (st : ReactiveState) (name : String) : List String :=
  (lookupOpt st.dependencies name).getD []

/-- `undo()`: pops the most recent history entry, writes its old value
back, notifies listeners; `false` on empty history. -/
def undo (st : ReactiveState) : Bool × ReactiveState × List Job :=
  match st.history.getLast? with
  | none => (false, st, [])
  | some lastChange =>
    (true,
      { st with
        history := st.history.dropLast
        data := setKey st.data lastChange.property lastChange.oldValue },
      [Job.deliver [⟨lastChange.property, lastChange.oldValue,
        lastChange.newValue⟩]])

/-- What the function passed to `transaction` does, step by step: each
`upd` is a call of `this.update` (the collecting replacement during the
transaction), and `raise` throws. -/
inductive TxAct where
  | upd (k : String) (v : Value)
  | raise (msg : String)
deriving Repr

/-- Running the transaction body against the replaced `update`: each write
is captured (the source also records `oldValue`, which nothing reads) and
applied to the data map; a `raise` aborts with the state at the throw. -/
def txBody : ReactiveState → List TxAct → List (String × Value) →
    Except (String × ReactiveState) (ReactiveState × List (String × Value))
  | st, [], ups => .ok (st, ups)
  | st, .upd k v :: rest, ups =>
    txBody { st with data := setKey st.data k v } rest (ups ++ [(k, v)])
  | st, .raise msg :: _, _ => .error (msg, st)

/-- `transaction(updateFn)`: snapshots the data map, replaces `this.update`,
runs the body; on a throw restores the snapshot and re-raises — without
restoring `this.update`; on success restores `this.update` and applies the
captured writes as one `updateBatch`. -/
def transaction (st : ReactiveState) (updateFn : List TxAct) :
    Option String × ReactiveState × List Job :=
  let originalData := st.data.map (fun p => (p.1, cloneDeep p.2))
  let prevOverridden := st.updateOverridden
  let st0 := { st with updateOverridden := true }
  match txBody st0 updateFn [] with
  | .error (msg, stMid) => (some msg, { stMid with data := originalData }, [])
  | .ok (stMid, ups) =>
    let st1 := { stMid with updateOverridden := prevOverridden }
    let batchUpdate := ups.foldl (fun acc kv => setKey acc kv.1 kv.2) []
    (none, (updateBatch st1 batchUpdate).1, (updateBatch st1 batchUpdate).2)

/-- The first raised message of a transaction body, if any. -/
def raisesOf : List TxAct → Option String
  | [] => none
  | .upd _ _ :: rest => raisesOf rest
  | .raise msg :: _ => some msg

/-- The writes a transaction body issues before any raise. -/
def writesOf : List TxAct → List (String × Value)
  | [] => []
  | .upd k v :: rest => (k, v) :: writesOf rest
  | .raise _ :: _ => []

end ReactiveState

/-- An operation issued against one `ReactiveState` instance within one
synchronous turn. -/
inductive ROp where
  | update (k : String) (v : Value)
  | updateBatch (m : List (String × Value))
  | undo
  | clearHistory
  | transaction (fn : List ReactiveState.TxAct)

namespace ReactiveState

/-- The state change and enqueued microtasks of one operation (rejections
propagate to the caller and leave the state as the operation left it). -/
def opStep (st : ReactiveState) : ROp → ReactiveState × List Job
  | .update k v => let r := callUpdate st k v; (r.2.1, r.2.2)
  | .updateBatch m => updateBatch st m
  | .undo => let r := undo st; (r.2.1, r.2.2)
  | .clearHistory => ({ st with history := [] }, [])
  | .transaction fn => let r := transaction st fn; (r.2.1, r.2.2)

def runOps : ReactiveState → List ROp → ReactiveState × List Job
  | st, [] => (st, [])
  | st, op :: ops =>
    let r1 := opStep st op
    let r2 := runOps r1.1 ops
    (r2.1, r1.2 ++ r2.2)

/-- Running one microtask. -/
def processJob (st : ReactiveState) : Job → ReactiveState × List Notification
  | .deliver changes => (st, [changes])
  | .flushJob => flushUpdates st

/-- Draining the microtask queue in FIFO order (no job enqueues another). -/
def drainJobs : ReactiveState → List Job → ReactiveState × List Notification
  | st, [] => (st, [])
  | st, j :: js =>
    let r1 := processJob st j
    let r2 := drainJobs r1.1 js
    (r2.1, r1.2 ++ r2.2)

/-- One synchronous turn: run the operations, then the microtasks they
enqueued; returns the final state and the notifications delivered. -/
def turnRun (st : ReactiveState) (ops : List ROp) :
    ReactiveState × List Notification :=
  let r := runOps st ops
  drainJobs r.1 r.2

end ReactiveState

/-- Folding JS object assignments `acc[k] = v` over a list of writes
(also: building an object from captured transaction writes). -/
def applyWrites (d : List (String × Value)) (us : List (String × Value)) :
    List (String × Value) :=
  us.foldl (fun acc kv => setKey acc kv.1 kv.2) d

/-- The last value written to `k` by a list of writes, if any. -/
def lastWrite : List (String × Value) → String → Option Value
  | [], _ => none
  | (k0, v0) :: rest, k =>
    match lastWrite rest k with
    | some v => some v
    | none => if k0 = k then some v0 else none

/-! ### Association-list lemmas -/

theorem lookupOpt_setKey_self {α : Type} (l : List (String × α)) (k : String)
    (v : α) : lookupOpt (setKey l k v) k = some v := by
  induction l with
  | nil => simp [setKey, lookupOpt]
  | cons p rest ih =>
    obtain ⟨pk, pv⟩ := p
    by_cases h : pk = k
    · simp [setKey, h, lookupOpt]
    · simp [setKey, h, lookupOpt, ih]

theorem lookupOpt_setKey_other {α : Type} (l : List (String × α))
    (k k2 : String) (v : α) (h : k2 ≠ k) :
    lookupOpt (setKey l k v) k2 = lookupOpt l k2 := by
  induction l with
  | nil => simp [setKey, lookupOpt, Ne.symm h]
  | cons p rest ih =>
    obtain ⟨pk, pv⟩ := p
    by_cases hp : pk = k
    · subst hp
      simp [setKey, lookupOpt, Ne.symm h]
    · simp [setKey, hp, lookupOpt, ih]

theorem lookup_applyWrites (us : List (String × Value))
    (d : List (String × Value)) (k : String) :
    lookupOpt (applyWrites d us) k =
      match lastWrite us k with
      | some v => some v
      | none => lookupOpt d k := by
  induction us generalizing d with
  | nil => simp [applyWrites, lastWrite]
  | cons u rest ih =>
    obtain ⟨k0, v0⟩ := u
    have hstep : applyWrites d ((k0, v0) :: rest) =
        applyWrites (setKey d k0 v0) rest := rfl
    rw [hstep, ih]
    cases hl : lastWrite rest k with
    | some v => simp [lastWrite, hl]
    | none =>
      by_cases hk : k0 = k
      · subst hk
        simp [lastWrite, hl, lookupOpt_setKey_self]
      · simp [lastWrite, hl, hk, lookupOpt_setKey_other _ _ _ _ (Ne.symm hk)]

theorem lookupOpt_none_iff_keys {α : Type} (l : List (String × α)) (k : String) :
    lookupOpt l k = none ↔ k ∉ l.map Prod.fst := by
  induction l with
  | nil => simp [lookupOpt]
  | cons p rest ih =>
    obtain ⟨pk, pv⟩ := p
    by_cases hp : pk = k
    · subst hp
      simp [lookupOpt]
    · simp [lookupOpt, hp, ih, Ne.symm hp]

theorem setKey_keys_of_mem {α : Type} (l : List (String × α)) (k : String)
    (v : α) (h : k ∈ l.map Prod.fst) :
    (setKey l k v).map Prod.fst = l.map Prod.fst := by
  induction l with
  | nil => simp at h
  | cons p rest ih =>
    obtain ⟨pk, pv⟩ := p
    by_cases hp : pk = k
    · simp [setKey, hp]
    · have hr : k ∈ rest.map Prod.fst := by
        rw [List.map_cons] at h
        rcases List.mem_cons.mp h with h1 | h1
        · exact absurd h1.symm hp
        · exact h1
      simp [setKey, hp, ih hr]

theorem setKey_keys_of_not_mem {α : Type} (l : List (String × α)) (k : String)
    (v : α) (h : k ∉ l.map Prod.fst) :
    (setKey l k v).map Prod.fst = l.map Prod.fst ++ [k] := by
  induction l with
  | nil => simp [setKey]
  | cons p rest ih =>
    obtain ⟨pk, pv⟩ := p
    have hp : pk ≠ k := by
      intro hk
      exact h (by simp [hk])
    have hr : k ∉ rest.map Prod.fst := by
      intro hk
      exact h (by simp [hk])
    simp [setKey, hp, ih hr]

theorem applyWrites_nodup_keys (us : List (String × Value))
    (d : List (String × Value)) (h : (d.map Prod.fst).Nodup) :
    ((applyWrites d us).map Prod.fst).Nodup := by
  induction us generalizing d with
  | nil => simpa [applyWrites]
  | cons u rest ih =>
    obtain ⟨k0, v0⟩ := u
    have hstep : applyWrites d ((k0, v0) :: rest) =
        applyWrites (setKey d k0 v0) rest := rfl
    rw [hstep]
    refine ih _ ?_
    by_cases hk : k0 ∈ d.map Prod.fst
    · rw [setKey_keys_of_mem _ _ _ hk]
      exact h
    · rw [setKey_keys_of_not_mem _ _ _ hk]
      refine List.Nodup.append h (List.nodup_singleton _) ?_
      intro a ha hb
      rw [List.mem_singleton] at hb
      subst hb
      exact hk ha

theorem lookupOpt_filter_none {α : Type} (l : List (String × α)) (k : String)
    (p : String × α → Bool) (h : ∀ v, p (k, v) = false) :
    lookupOpt (l.filter p) k = none := by
  induction l with
  | nil => simp [lookupOpt]
  | cons q rest ih =>
    obtain ⟨qk, qv⟩ := q
    by_cases hq : p (qk, qv) = true
    · rw [List.filter_cons_of_pos hq]
      have hk : qk ≠ k := by
        intro hk
        subst hk
        rw [h qv] at hq
        exact Bool.false_ne_true hq
      simp [lookupOpt, hk, ih]
    · rw [List.filter_cons_of_neg (by simpa using hq)]
      exact ih

theorem cloneData_id (d : List (String × Value)) :
    d.map (fun p => (p.1, cloneDeep p.2)) = d := by
  simp [cloneDeep]

/-! ### ReactiveState lemmas -/

namespace ReactiveState

theorem txBody_spec (fn : List TxAct) :
    ∀ (st : ReactiveState) (ups : List (String × Value)),
    (raisesOf fn = none →
      txBody st fn ups =
        .ok ({ st with data := applyWrites st.data (writesOf fn) },
          ups ++ writesOf fn)) ∧
    (∀ msg, raisesOf fn = some msg →
      ∃ dmid, txBody st fn ups = .error (msg, { st with data := dmid })) := by
  induction fn with
  | nil =>
    intro st ups
    constructor
    · intro _
      simp [txBody, writesOf, applyWrites]
    · intro msg h
      simp [raisesOf] at h
  | cons act rest ih =>
    intro st ups
    cases act with
    | upd k v =>
      constructor
      · intro hnone
        have h1 := (ih { st with data := setKey st.data k v } (ups ++ [(k, v)])).1
          (by simpa [raisesOf] using hnone)
        simp only [txBody, h1, writesOf]
        simp [applyWrites]
      · intro msg hsome
        obtain ⟨dmid, h1⟩ := (ih { st with data := setKey st.data k v }
          (ups ++ [(k, v)])).2 msg (by simpa [raisesOf] using hsome)
        exact ⟨dmid, by simp only [txBody, h1]⟩
    | raise m =>
      constructor
      · intro hnone
        simp [raisesOf] at hnone
      · intro msg hsome
        simp only [raisesOf, Option.some.injEq] at hsome
        subst hsome
        exact ⟨st.data, by simp only [txBody]⟩

theorem updateBatchLoop_eta (m : List (String × Value)) :
    ∀ (st : ReactiveState) (ch : List Change),
    (updateBatchLoop st m ch).1 =
      { st with data := (updateBatchLoop st m ch).1.data } := by
  induction m with
  | nil => intro st ch; rfl
  | cons kv rest ih =>
    intro st ch
    obtain ⟨k, v⟩ := kv
    by_cases h : lookupVal st.data k ≠ v
    · simp only [updateBatchLoop, if_pos h]
      rw [ih]
    · simp only [updateBatchLoop, if_neg h]
      rw [ih]

theorem invalidateFold_eta (updates : List Change) :
    ∀ (st : ReactiveState),
    (updates.foldl (fun s u => invalidateComputedProperties s u.property) st) =
      { st with computedCache :=
        (updates.foldl (fun s u => invalidateComputedProperties s u.property)
          st).computedCache } := by
  induction updates with
  | nil => intro st; rfl
  | cons u rest ih =>
    intro st
    simp only [List.foldl_cons]
    rw [ih]
    rfl

end ReactiveState

namespace ReactiveState

theorem recordDependency_fields (st : ReactiveState) (property : String) :
    (recordDependency st property).data = st.data ∧
    (recordDependency st property).computedDefs = st.computedDefs ∧
    (recordDependency st property).computedCache = st.computedCache ∧
    (recordDependency st property).currentComputed = st.currentComputed := by
  cases h : st.currentComputed with
  | none => simp [recordDependency, h]
  | some nm =>
    by_cases hc : property ∈ (lookupOpt st.dependencies nm).getD []
    · simp [recordDependency, h, hc]
    · simp [recordDependency, h, hc]

theorem recordDependency_mono (st : ReactiveState) (property r name : String)
    (h : r ∈ depsOf st name) : r ∈ depsOf (recordDependency st property) name := by
  cases hcur : st.currentComputed with
  | none => simpa [recordDependency, hcur] using h
  | some nm =>
    by_cases hc : property ∈ (lookupOpt st.dependencies nm).getD []
    · simpa [recordDependency, hcur, hc] using h
    · simp only [recordDependency, hcur]
      rw [if_neg (by simpa using hc)]
      by_cases hn : name = nm
      · subst hn
        unfold depsOf at h ⊢
        simp only [lookupOpt_setKey_self, Option.getD_some]
        exact List.mem_append_left _ h
      · unfold depsOf at h ⊢
        rw [lookupOpt_setKey_other _ _ _ _ hn]
        exact h

theorem recordDependency_mem (st : ReactiveState) (name property : String)
    (h : st.currentComputed = some name) :
    property ∈ depsOf (recordDependency st property) name := by
  by_cases hc : property ∈ (lookupOpt st.dependencies name).getD []
  · simp [recordDependency, h, hc, depsOf]
  · simp only [recordDependency, h]
    rw [if_neg (by simpa using hc)]
    unfold depsOf
    simp only [lookupOpt_setKey_self, Option.getD_some]
    exact List.mem_append_right _ (List.mem_singleton_self _)

theorem evalExp_spec (e : CompExp) :
    ∀ (st : ReactiveState) (name : String), st.currentComputed = some name →
    (evalExp e st).2.currentComputed = some name ∧
    (evalExp e st).2.data = st.data ∧
    (evalExp e st).2.computedDefs = st.computedDefs ∧
    (evalExp e st).2.computedCache = st.computedCache ∧
    (evalExp e st).1 = evalPure e st.data ∧
    (∀ r, r ∈ depsOf st name → r ∈ depsOf (evalExp e st).2 name) ∧
    (∀ r, r ∈ readsOf e → r ∈ depsOf (evalExp e st).2 name) := by
  induction e with
  | lit v =>
    intro st name h
    refine ⟨h, rfl, rfl, rfl, rfl, fun r hr => hr, fun r hr => ?_⟩
    simp [readsOf] at hr
  | readKey k =>
    intro st name h
    obtain ⟨hd, hdefs, hcache, hcur⟩ := recordDependency_fields st k
    refine ⟨by simp [evalExp, hcur, h], by simp [evalExp, hd],
      by simp [evalExp, hdefs], by simp [evalExp, hcache],
      by simp [evalExp, evalPure], ?_, ?_⟩
    · intro r hr
      exact recordDependency_mono st k r name hr
    · intro r hr
      simp only [readsOf, List.mem_singleton] at hr
      subst hr
      exact recordDependency_mem st name r h
  | add a b iha ihb =>
    intro st name h
    obtain ⟨ha1, ha2, ha3, ha4, ha5, ha6, ha7⟩ := iha st name h
    obtain ⟨hb1, hb2, hb3, hb4, hb5, hb6, hb7⟩ := ihb (evalExp a st).2 name ha1
    have heval : evalExp (.add a b) st =
        (addVal (evalExp a st).1 (evalExp b (evalExp a st).2).1,
          (evalExp b (evalExp a st).2).2) := by
      simp [evalExp]
    refine ⟨by rw [heval]; exact hb1, by rw [heval]; rw [hb2, ha2],
      by rw [heval]; rw [hb3, ha3], by rw [heval]; rw [hb4, ha4], ?_, ?_, ?_⟩
    · rw [heval]
      simp only [evalPure]
      rw [ha5, hb5, ha2]
    · intro r hr
      rw [heval]
      exact hb6 r (ha6 r hr)
    · intro r hr
      rw [heval]
      rcases List.mem_append.mp (by simpa [readsOf] using hr) with h1 | h1
      · exact hb6 r (ha7 r h1)
      · exact hb7 r h1

end ReactiveState

namespace ReactiveState

theorem update_eval (st : ReactiveState) (k : String) (v : Value)
    (hval : st.validation = []) (hmw : st.middleware = []) :
    update st k v =
      (none,
        { st with
          history := (if st.maxHistorySize ≤ st.history.length then
              st.history.drop 1 else st.history) ++ [⟨k, lookupVal st.data k, v⟩]
          data := setKey st.data k v
          batchedUpdates := st.batchedUpdates ++ [⟨k, v, lookupVal st.data k⟩]
          updateScheduled := true },
        if st.updateScheduled = true then [] else [Job.flushJob]) := by
  unfold update validateProperty
  rw [hval, hmw]
  simp only [lookupOpt, applyMiddleware, cloneDeep]
  by_cases hs : st.updateScheduled = true
  · simp [hs]
  · simp [hs]

theorem flushUpdates_spec (st : ReactiveState) (h : ¬ st.batchedUpdates = []) :
    (flushUpdates st).2 = [st.batchedUpdates] ∧
    (flushUpdates st).1.data = st.data ∧
    (flushUpdates st).1.history = st.history ∧
    (flushUpdates st).1.computedDefs = st.computedDefs ∧
    (flushUpdates st).1.dependencies = st.dependencies ∧
    (flushUpdates st).1.batchedUpdates = [] ∧
    (flushUpdates st).1.updateScheduled = false := by
  have hF : flushUpdates st =
      (st.batchedUpdates.foldl (fun s u => invalidateComputedProperties s u.property)
        { st with batchedUpdates := [], updateScheduled := false },
      [st.batchedUpdates]) := by
    simp [flushUpdates, h]
  have he := invalidateFold_eta st.batchedUpdates
    { st with batchedUpdates := [], updateScheduled := false }
  refine ⟨by rw [hF], ?_, ?_, ?_, ?_, ?_, ?_⟩ <;> rw [hF] <;> rw [he]

end ReactiveState

namespace ReactiveState

theorem runUpdates_inv (us : List (String × Value)) :
    ∀ (st : ReactiveState),
    st.validation = [] → st.middleware = [] → st.updateOverridden = false →
    st.updateScheduled = true →
    st.history.length + us.length ≤ st.maxHistorySize →
    (runOps st (us.map fun kv => ROp.update kv.1 kv.2)).2 = [] ∧
    (runOps st (us.map fun kv => ROp.update kv.1 kv.2)).1.data =
      applyWrites st.data us ∧
    (runOps st (us.map fun kv => ROp.update kv.1 kv.2)).1.history.map
        (fun e => (e.property, e.newValue)) =
      st.history.map (fun e => (e.property, e.newValue)) ++ us ∧
    (runOps st (us.map fun kv => ROp.update kv.1 kv.2)).1.history.length =
      st.history.length + us.length ∧
    (runOps st (us.map fun kv => ROp.update kv.1 kv.2)).1.batchedUpdates.length =
      st.batchedUpdates.length + us.length ∧
    (runOps st (us.map fun kv => ROp.update kv.1 kv.2)).1.updateScheduled = true ∧
    (runOps st (us.map fun kv => ROp.update kv.1 kv.2)).1.validation = [] ∧
    (runOps st (us.map fun kv => ROp.update kv.1 kv.2)).1.middleware = [] ∧
    (runOps st (us.map fun kv => ROp.update kv.1 kv.2)).1.updateOverridden = false ∧
    (runOps st (us.map fun kv => ROp.update kv.1 kv.2)).1.maxHistorySize =
      st.maxHistorySize := by
  induction us with
  | nil =>
    intro st hval hmw hov hs hcap
    simp [runOps, applyWrites, hs, hval, hmw, hov]
  | cons kv rest ih =>
    intro st hval hmw hov hs hcap
    obtain ⟨k, v⟩ := kv
    have hupd := update_eval st k v hval hmw
    have hlen : ¬ st.maxHistorySize ≤ st.history.length := by
      simp only [List.length_cons] at hcap
      omega
    have hop : opStep st (ROp.update k v) =
        ({ st with
            history := st.history ++ [⟨k, lookupVal st.data k, v⟩]
            data := setKey st.data k v
            batchedUpdates := st.batchedUpdates ++ [⟨k, v, lookupVal st.data k⟩]
            updateScheduled := true }, []) := by
      simp [opStep, callUpdate, hov, hupd, hlen, hs]
    have hrun : runOps st (((k, v) :: rest).map fun kv => ROp.update kv.1 kv.2) =
        (( runOps ({ st with
            history := st.history ++ [⟨k, lookupVal st.data k, v⟩]
            data := setKey st.data k v
            batchedUpdates := st.batchedUpdates ++ [⟨k, v, lookupVal st.data k⟩]
            updateScheduled := true })
          (rest.map fun kv => ROp.update kv.1 kv.2)).1,
          [] ++ (runOps ({ st with
            history := st.history ++ [⟨k, lookupVal st.data k, v⟩]
            data := setKey st.data k v
            batchedUpdates := st.batchedUpdates ++ [⟨k, v, lookupVal st.data k⟩]
            updateScheduled := true })
          (rest.map fun kv => ROp.update kv.1 kv.2)).2) := by
      simp only [List.map_cons, runOps, hop]
    obtain ⟨ih1, ih2, ih3, ih4, ih5, ih6, ih7, ih8, ih9, ih10⟩ :=
      ih { st with
            history := st.history ++ [⟨k, lookupVal st.data k, v⟩]
            data := setKey st.data k v
            batchedUpdates := st.batchedUpdates ++ [⟨k, v, lookupVal st.data k⟩]
            updateScheduled := true }
        hval hmw hov rfl (by simp only [List.length_append, List.length_cons,
          List.length_nil] at hcap ⊢; omega)
    rw [hrun]
    refine ⟨by simpa using ih1, by simpa [applyWrites] using ih2, ?_, ?_, ?_,
      by simpa using ih6, by simpa using ih7, by simpa using ih8,
      by simpa using ih9, by simpa using ih10⟩
    · simp only at ih3 ⊢
      rw [ih3]
      simp
    · simp only at ih4 ⊢
      rw [ih4]
      simp
      omega
    · simp only at ih5 ⊢
      rw [ih5]
      simp
      omega

end ReactiveState

namespace ReactiveState

theorem updateBatchLoop_skip (m : List (String × Value)) :
    ∀ (st : ReactiveState) (ch : List Change),
    (m.map Prod.fst).Nodup →
    (∀ k v, lookupOpt m k = some v → lookupVal st.data k = v) →
    updateBatchLoop st m ch = (st, ch) := by
  induction m with
  | nil => intro st ch _ _; rfl
  | cons kv rest ih =>
    intro st ch hnodup hpt
    obtain ⟨k0, v0⟩ := kv
    have h0 : lookupVal st.data k0 = v0 := hpt k0 v0 (by simp [lookupOpt])
    have hnd : (rest.map Prod.fst).Nodup := by
      rw [List.map_cons] at hnodup
      exact hnodup.of_cons
    have hk0 : k0 ∉ rest.map Prod.fst := by
      rw [List.map_cons] at hnodup
      exact (List.nodup_cons.mp hnodup).1
    have hpt2 : ∀ k v, lookupOpt rest k = some v → lookupVal st.data k = v := by
      intro k v hkv
      by_cases hk : k0 = k
      · subst hk
        rw [(lookupOpt_none_iff_keys rest k0).mpr hk0] at hkv
        exact absurd hkv (Option.noConfusion)
      · refine hpt k v ?_
        simp [lookupOpt, hk, hkv]
    simp only [updateBatchLoop, h0, ne_eq, not_true_eq_false, if_neg,
      not_not]
    exact ih st ch hnd hpt2

theorem updateBatch_fields (st : ReactiveState) (m : List (String × Value)) :
    (updateBatch st m).1 = { st with data := (updateBatch st m).1.data } := by
  have he := updateBatchLoop_eta m st []
  by_cases h : (updateBatchLoop st m []).2 ≠ []
  · have h1 : (updateBatch st m).1 = (updateBatchLoop st m []).1 := by
      unfold updateBatch
      rw [if_pos h]
    rw [h1, he]
  · have h1 : (updateBatch st m).1 = (updateBatchLoop st m []).1 := by
      unfold updateBatch
      rw [if_neg h]
    rw [h1, he]

theorem opStep_history_bound (st : ReactiveState) (op : ROp) :
    (opStep st op).1.maxHistorySize = st.maxHistorySize ∧
    (1 ≤ st.maxHistorySize → st.history.length ≤ st.maxHistorySize →
      (opStep st op).1.history.length ≤ st.maxHistorySize) := by
  cases op with
  | update k v =>
    by_cases hov : st.updateOverridden = true
    · simp [opStep, callUpdate, hov, overriddenUpdate]
    · simp only [opStep, callUpdate, hov, Bool.false_eq_true, if_false]
      unfold update
      cases hv : validateProperty st k v with
      | some msg => simp
      | none =>
        simp only
        cases hm : applyMiddleware st.middleware k v (lookupVal st.data k) st.data with
        | error e => simp
        | ok pv =>
          simp only
          by_cases hcap : st.maxHistorySize ≤ st.history.length
          · constructor
            · split <;> rfl
            · intro h1 hle
              split <;> simp [hcap, List.length_drop] <;> omega
          · constructor
            · split <;> rfl
            · intro h1 hle
              split <;> simp [hcap] <;> omega
  | updateBatch m =>
    have he := updateBatch_fields st m
    have hpr : (opStep st (ROp.updateBatch m)).1 = (updateBatch st m).1 := rfl
    refine ⟨?_, ?_⟩
    · rw [hpr, he]
    · intro _ hle
      rw [hpr, he]
      exact hle
  | undo =>
    cases hl : st.history.getLast? with
    | none => simp [opStep, undo, hl]
    | some e =>
      constructor
      · simp [opStep, undo, hl]
      · intro _ hle
        simp only [opStep, undo, hl]
        calc st.history.dropLast.length ≤ st.history.length := by
              rw [List.length_dropLast]; omega
          _ ≤ st.maxHistorySize := hle
  | clearHistory => exact ⟨rfl, fun _ _ => Nat.zero_le _⟩
  | transaction fn =>
    cases hra : raisesOf fn with
    | some msg =>
      obtain ⟨dmid, hb⟩ := (txBody_spec fn { st with updateOverridden := true } []).2
        msg hra
      simp [opStep, transaction, hb]
    | none =>
      have hb := (txBody_spec fn { st with updateOverridden := true } []).1 hra
      simp only [opStep, transaction, hb]
      constructor
      · rw [updateBatch_fields]
      · intro _ hle
        rw [updateBatch_fields]
        exact hle

theorem runOps_history_bound (ops : List ROp) :
    ∀ (st : ReactiveState), 1 ≤ st.maxHistorySize →
    st.history.length ≤ st.maxHistorySize →
    (runOps st ops).1.maxHistorySize = st.maxHistorySize ∧
    (runOps st ops).1.history.length ≤ st.maxHistorySize := by
  induction ops with
  | nil => intro st _ hle; exact ⟨rfl, hle⟩
  | cons op rest ih =>
    intro st h1 hle
    obtain ⟨hmax, hbound⟩ := opStep_history_bound st op
    obtain ⟨ihmax, ihbound⟩ := ih (opStep st op).1 (hmax ▸ h1)
      (hmax ▸ hbound h1 hle)
    have hrun : runOps st (op :: rest) =
        ((runOps (opStep st op).1 rest).1,
          (opStep st op).2 ++ (runOps (opStep st op).1 rest).2) := by
      simp only [runOps]
    rw [hrun]
    exact ⟨by rw [ihmax, hmax], by rw [← hmax]; exact ihbound⟩

end ReactiveState

/-! ### Claim theorems -/

theorem lexLoop_at_stuck :
    ∀ (fuel : Nat) (ts : List Token),
    EZUILexer.lexLoop fuel ⟨['@'], 0, ts⟩ = none := by
  intro fuel
  induction fuel with
  | zero => intro ts; rfl
  | succ f ih =>
    intro ts
    have hscan : EZUILexer.scanToken f ⟨['@'], 0, ts⟩ =
        some ⟨['@'], 0, ts ++ [⟨"TEXT", "@", false, 1⟩]⟩ := rfl
    have hstep : EZUILexer.lexLoop (f + 1) ⟨['@'], 0, ts⟩ =
        EZUILexer.lexLoop f ⟨['@'], 0, ts ++ [⟨"TEXT", "@", false, 1⟩]⟩ := by
      conv_lhs => rw [EZUILexer.lexLoop]
      simp [hscan]
    rw [hstep]
    exact ih _

/-- C1: the claim says `tokenize` terminates on every input and makes
forward progress on unrecognized characters by emitting them as
single-character TEXT tokens.  The code's `addToken('TEXT', char)` passes an
explicit value, and `addToken` only advances when the value is omitted — so
an unrecognized character such as `'@'` is re-scanned forever and `tokenize`
never returns: at every fuel the run is unfinished. -/
theorem c1_tokenize_diverges_on_unrecognized_char :
    ∀ fuel : Nat, EZUILexer.tokenize fuel "@" = none := by
  intro fuel
  show (EZUILexer.lexLoop fuel ⟨['@'], 0, []⟩).map _ = none
  rw [lexLoop_at_stuck fuel []]
  rfl

/-- C3: the claim (and the repository's own test asserting
`ast.state.count === 0`) expects `parse` then `compile` to produce a
component whose state keys are the state block's keys.  The lexer's
`addToken('STATE_BLOCK')` consumes one character, so `state { count: 0 }`
lexes as `STATE_BLOCK('s'), IDENTIFIER('tate'), LEFT_BRACE, ...` and
`parseStateBlock`'s `consume('LEFT_BRACE')` always throws: `parse` fails on
every source with a state block, and `compile` is never reached. -/
theorem c3_state_block_always_fails_to_parse :
    EZUIParser.parse 2000 "<component Counter.ezu> state \x7b count: 0 \x7d" =
      some (Except.error
        "Parse error: Expected \"\x7b\" after state. Got IDENTIFIER instead. at line 1") := by
  rfl

/-- C8: the claim says a `'{'` scanned while heuristically inside a template
block is emitted as one INTERPOLATION token.  In `scanToken` the
unconditional `LEFT_BRACE` branch precedes the `isInTemplate()` branch, so
`scanInterpolation` is unreachable: on the repository's own test input the
heuristic holds at the `'{'` of `{count}` (position 16), yet the output
contains LEFT_BRACE/IDENTIFIER/RIGHT_BRACE and no INTERPOLATION token. -/
theorem c8_interpolation_branch_unreachable :
    EZUILexer.tokenize 2000 "template \x7b <div>\x7bcount\x7d</div> \x7d" =
      some [⟨"TEMPLATE_BLOCK", "t", false, 1⟩, ⟨"IDENTIFIER", "emplate", false, 1⟩,
        ⟨"LEFT_BRACE", "\x7b", false, 1⟩, ⟨"HTML_TAG", "<div>", false, 1⟩,
        ⟨"LEFT_BRACE", "\x7b", false, 1⟩, ⟨"IDENTIFIER", "count", false, 1⟩,
        ⟨"RIGHT_BRACE", "\x7d", false, 1⟩, ⟨"HTML_TAG", "</div>", false, 1⟩,
        ⟨"RIGHT_BRACE", "\x7d", false, 1⟩, ⟨"EOF", "", false, 1⟩] ∧
    ([⟨"TEMPLATE_BLOCK", "t", false, 1⟩, ⟨"IDENTIFIER", "emplate", false, 1⟩,
        ⟨"LEFT_BRACE", "\x7b", false, 1⟩, ⟨"HTML_TAG", "<div>", false, 1⟩,
        ⟨"LEFT_BRACE", "\x7b", false, 1⟩, ⟨"IDENTIFIER", "count", false, 1⟩,
        ⟨"RIGHT_BRACE", "\x7d", false, 1⟩, ⟨"HTML_TAG", "</div>", false, 1⟩,
        ⟨"RIGHT_BRACE", "\x7d", false, 1⟩, ⟨"EOF", "", false, 1⟩] :
      List Token).all (fun t => t.type != "INTERPOLATION") = true ∧
    EZUILexer.isInTemplate
      ⟨("template \x7b <div>\x7bcount\x7d</div> \x7d").toList, 16, []⟩ = true := by
  refine ⟨rfl, by decide, rfl⟩

/-- C4 counterexample: the claim says the part after the first `':'` is
preserved in full.  `scopeSelector` destructures `selector.split(':')` into
its first two parts only, so `button:hover:focus` loses `:focus`: the code
yields `.s1 button:hover` where the claim's rewrite yields
`.s1 button:hover:focus`. -/
theorem c4_counterexample_second_colon_dropped :
    EZUICompiler.scopeSelector "button:hover:focus" "s1" = ".s1 button:hover" ∧
    EZUICompiler.specScopeSelector "button:hover:focus" "s1" =
      ".s1 button:hover:focus" ∧
    EZUICompiler.scopeSelector "button:hover:focus" "s1" ≠
      EZUICompiler.specScopeSelector "button:hover:focus" "s1" := by
  refine ⟨by decide, by decide, by decide⟩

theorem splitOnColon_ne_nil : ∀ l : List Char, splitOnColon l ≠ [] := by
  intro l
  cases l with
  | nil => simp [splitOnColon]
  | cons c cs =>
    by_cases h : c = ':'
    · simp [splitOnColon, h]
    · simp only [splitOnColon, h, if_neg, Bool.false_eq_true]
      cases hsp : splitOnColon cs with
      | nil => simp
      | cons p ps => simp

theorem splitOnColon_head : ∀ l : List Char,
    (splitOnColon l).getD 0 [] = beforeFirstColon l := by
  intro l
  induction l with
  | nil => rfl
  | cons c cs ih =>
    by_cases h : c = ':'
    · simp [splitOnColon, beforeFirstColon, h]
    · cases hsp : splitOnColon cs with
      | nil => exact absurd hsp (splitOnColon_ne_nil cs)
      | cons p ps =>
        rw [hsp] at ih
        simp only [splitOnColon, h, if_neg, hsp, List.getD_cons_zero,
          beforeFirstColon, List.takeWhile] at ih ⊢
        simp [h, ih]

theorem splitOnColon_second : ∀ l : List Char, l.contains ':' = true →
    (splitOnColon l).getD 1 [] = betweenFirstColons l := by
  intro l
  induction l with
  | nil => intro h; simp at h
  | cons c cs ih =>
    intro hc
    by_cases h : c = ':'
    · subst h
      have hstep : splitOnColon (':' :: cs) = [] :: splitOnColon cs := by
        simp [splitOnColon]
      rw [hstep, List.getD_cons_succ, splitOnColon_head cs]
      have hbet : betweenFirstColons (':' :: cs) = beforeFirstColon cs := by
        simp [betweenFirstColons, afterFirstColon, beforeFirstColon,
          List.takeWhile_cons]
      rw [hbet]
    · have hcs : cs.contains ':' = true := by
        simp only [List.contains_cons, Bool.or_eq_true] at hc
        rcases hc with hc | hc
        · have hceq : ':' = c := by simpa using hc
          exact absurd hceq.symm h
        · exact hc
      cases hsp : splitOnColon cs with
      | nil => exact absurd hsp (splitOnColon_ne_nil cs)
      | cons p ps =>
        have hstep : splitOnColon (c :: cs) = (c :: p) :: ps := by
          simp [splitOnColon, h, hsp]
        have ih2 := ih hcs
        rw [hsp, List.getD_cons_succ] at ih2
        rw [hstep, List.getD_cons_succ, ih2]
        have hbet : betweenFirstColons (c :: cs) = betweenFirstColons cs := by
          simp [betweenFirstColons, afterFirstColon, beforeFirstColon,
            List.takeWhile_cons, h]
        rw [hbet]

/-- C4 amended: for a selector containing `':'` (and not `:host`-prefixed)
the scope rewrite keeps the trimmed part before the first `':'` and only the
trimmed segment between the first and the second `':'` — everything from a
second `':'` on is dropped (`const [base, pseudo] = selector.split(':')`).
`:host`-prefixed selectors pass through unchanged, colon-free selectors get
the scope class prefixed, and `button:hover` with scope `s1` becomes
`.s1 button:hover`. -/
theorem c4_amended_scope_selector :
    (∀ selector scopeId : String,
      (":host".toList).isPrefixOf selector.toList = true →
      EZUICompiler.scopeSelector selector scopeId = selector) ∧
    (∀ selector scopeId : String,
      (":host".toList).isPrefixOf selector.toList = false →
      selector.toList.contains ':' = true →
      EZUICompiler.scopeSelector selector scopeId =
        "." ++ scopeId ++ " "
          ++ jsTrim (String.mk (beforeFirstColon selector.toList))
          ++ ":" ++ jsTrim (String.mk (betweenFirstColons selector.toList))) ∧
    (∀ selector scopeId : String,
      (":host".toList).isPrefixOf selector.toList = false →
      selector.toList.contains ':' = false →
      EZUICompiler.scopeSelector selector scopeId =
        "." ++ scopeId ++ " " ++ selector) ∧
    EZUICompiler.scopeSelector "button:hover" "s1" = ".s1 button:hover" := by
  refine ⟨?_, ?_, ?_, by decide⟩
  · intro selector scopeId h
    unfold EZUICompiler.scopeSelector
    rw [if_pos h]
  · intro selector scopeId h1 h2
    unfold EZUICompiler.scopeSelector
    rw [if_neg (by rw [h1]; exact Bool.false_ne_true), if_pos h2]
    show "." ++ scopeId ++ " "
        ++ jsTrim (String.mk ((splitOnColon selector.toList).getD 0 []))
        ++ ":" ++ jsTrim (String.mk ((splitOnColon selector.toList).getD 1 []))
      = _
    rw [splitOnColon_head, splitOnColon_second _ h2]
  · intro selector scopeId h1 h2
    unfold EZUICompiler.scopeSelector
    rw [if_neg (by rw [h1]; exact Bool.false_ne_true),
      if_neg (by rw [h2]; exact Bool.false_ne_true)]

/-- Witness for C4's amended theorem at concrete selectors. -/
theorem c4_amended_scope_selector_witness :
    EZUICompiler.scopeSelector ":host .inner" "s9" = ":host .inner" ∧
    EZUICompiler.scopeSelector "a:hover:focus" "s9" = ".s9 a:hover" ∧
    EZUICompiler.scopeSelector ".btn b" "s9" = ".s9 .btn b" := by
  refine ⟨c4_amended_scope_selector.1 ":host .inner" "s9" (by decide), ?_, ?_⟩
  · have h := c4_amended_scope_selector.2.1 "a:hover:focus" "s9" (by decide)
      (by decide)
    rw [h]
    decide
  · have h := c4_amended_scope_selector.2.2.1 ".btn b" "s9" (by decide)
      (by decide)
    rw [h]
    decide

theorem firstFailure_of_exists :
    ∀ (rules : List VRule) (v : Value),
    (∃ r ∈ rules, r.validator v ≠ Except.ok true) →
    ∃ m, ReactiveState.firstFailure rules v = some m := by
  intro rules
  induction rules with
  | nil =>
    intro v h
    obtain ⟨r, hr, _⟩ := h
    simp at hr
  | cons r rest ih =>
    intro v h
    cases hr : r.validator v with
    | ok b =>
      cases b with
      | true =>
        obtain ⟨r0, hmem, hne⟩ := h
        rcases List.mem_cons.mp hmem with h0 | h0
        · subst h0
          exact absurd hr hne
        · obtain ⟨m, hm⟩ := ih v ⟨r0, h0, hne⟩
          exact ⟨m, by simp [ReactiveState.firstFailure, hr, hm]⟩
      | false =>
        exact ⟨r.errorMessage, by simp [ReactiveState.firstFailure, hr]⟩
    | error msg =>
      exact ⟨"Validation error: " ++ msg, by simp [ReactiveState.firstFailure, hr]⟩

/-- C5: an `update` whose key has a failing (or throwing) registered
validation predicate rejects and leaves the state atomically unchanged:
`validateProperty` runs before any mutation, so the data map, the history
and the batch queue are untouched and no notification is scheduled. -/
theorem c5_validation_failure_atomic :
    ∀ (st : ReactiveState) (property : String) (value : Value)
      (rules : List VRule),
    st.updateOverridden = false →
    lookupOpt st.validation property = some rules →
    (∃ r ∈ rules, r.validator value ≠ Except.ok true) →
    (ReactiveState.callUpdate st property value).1.isSome = true ∧
    (ReactiveState.callUpdate st property value).2.1 = st ∧
    (ReactiveState.callUpdate st property value).2.2 = [] := by
  intro st property value rules hov hlookup hex
  obtain ⟨m, hm⟩ := firstFailure_of_exists rules value hex
  have hcall : ReactiveState.callUpdate st property value =
      (some ("Validation failed for " ++ property ++ ": " ++ m), st, []) := by
    unfold ReactiveState.callUpdate ReactiveState.update
      ReactiveState.validateProperty
    rw [hov]
    simp only [Bool.false_eq_true, if_false, hlookup, hm]
  rw [hcall]
  exact ⟨rfl, rfl, rfl⟩

/-- Witness for C5 at a concrete state carrying the compiler's
auto-derived age-range validator, updated with the out-of-range value 200. -/
theorem c5_validation_failure_atomic_witness :
    let st : ReactiveState :=
      ⟨[("age", Value.vnum 25)], [], [], [],
        [("age", [⟨fun v => match v with
          | Value.vnum n => Except.ok (decide (0 ≤ n ∧ n ≤ 150))
          | _ => Except.ok false, "Age must be between 0 and 150"⟩])],
        [], [], 50, [], false, none, false⟩
    (ReactiveState.callUpdate st "age" (Value.vnum 200)).1.isSome = true ∧
    (ReactiveState.callUpdate st "age" (Value.vnum 200)).2.1 = st ∧
    (ReactiveState.callUpdate st "age" (Value.vnum 200)).2.2 = [] := by
  intro st
  refine c5_validation_failure_atomic st "age" (Value.vnum 200) _ rfl rfl
    ⟨_, List.mem_singleton_self _, ?_⟩
  intro hcontra
  simp at hcontra

/-- C2 counterexample: the claim says the memoized cache is invalidated
exactly when a recorded dependency key changes.  `updateBatch` writes the
data map and notifies listeners but never calls
`invalidateComputedProperties`, so after `computed('c', () => a)` is read
once (recording dependency `a`, caching 0) and `updateBatch({a: 1})` runs a
full turn, `a` has changed yet the cache still holds the stale 0 and reading
`c` returns 0, not the freshly recomputed 1. -/
theorem c2_counterexample_updateBatch_stale :
    let st0 := createState [("a", Value.vnum 0)]
    let st1 := ReactiveState.computed st0 "c" (CompExp.readKey "a")
    let st2 := (ReactiveState.readComputed st1 "c").2
    let st3 := (ReactiveState.turnRun st2 [ROp.updateBatch [("a", Value.vnum 1)]]).1
    (ReactiveState.readComputed st2 "c").1 = Value.vnum 0 ∧
    "a" ∈ ReactiveState.depsOf st3 "c" ∧
    lookupOpt st3.data "a" = some (Value.vnum 1) ∧
    lookupOpt st3.computedCache "c" = some (Value.vnum 0) ∧
    (ReactiveState.readComputed st3 "c").1 = Value.vnum 0 := by
  exact ⟨rfl, by decide, rfl, rfl, rfl⟩

/-- C2 amended: each recomputation does record every key the compute
function reads (through the proxy) as a dependency; and the cache is
invalidated when a recorded dependency key changes *through `update`'s
batched flush* (the proxy `set` path likewise invalidates) — but not
through `updateBatch`/`undo`, which skip invalidation (see the
counterexample).  After `update(k, v)` and its flush, with `k` a recorded
dependency of `name`, the cache entry for `name` is gone, the data map
holds `v`, and reading `name` recomputes the value from the updated data. -/
theorem c2_amended_computed_invalidation :
    (∀ (st : ReactiveState) (name : String) (e : CompExp),
      lookupOpt st.computedDefs name = some e →
      lookupOpt st.computedCache name = none →
      ∀ r ∈ ReactiveState.readsOf e,
        r ∈ ReactiveState.depsOf (ReactiveState.readComputed st name).2 name) ∧
    (∀ (st : ReactiveState) (name k : String) (e : CompExp) (v : Value),
      lookupOpt st.computedDefs name = some e →
      k ∈ ReactiveState.depsOf st name →
      st.validation = [] → st.middleware = [] → st.updateOverridden = false →
      st.batchedUpdates = [] → st.updateScheduled = false →
      lookupOpt ((ReactiveState.turnRun st [ROp.update k v]).1).computedCache
          name = none ∧
      lookupOpt ((ReactiveState.turnRun st [ROp.update k v]).1).data k = some v ∧
      (ReactiveState.readComputed
          (ReactiveState.turnRun st [ROp.update k v]).1 name).1 =
        ReactiveState.evalPure e
          ((ReactiveState.turnRun st [ROp.update k v]).1).data) := by
  constructor
  · intro st name e hdfn hcache r hr
    have hspec := ReactiveState.evalExp_spec e
      { st with currentComputed := some name } name rfl
    have hread : (ReactiveState.readComputed st name).2.dependencies =
        (ReactiveState.evalExp e { st with currentComputed := some name }).2.dependencies := by
      simp [ReactiveState.readComputed, hdfn, hcache]
    unfold ReactiveState.depsOf
    rw [hread]
    exact hspec.2.2.2.2.2.2 r hr
  · intro st name k e v hdfn hdep hval hmw hov hbat hs
    have hop : ReactiveState.opStep st (ROp.update k v) =
        ({ st with
            history := (if st.maxHistorySize ≤ st.history.length then
                st.history.drop 1 else st.history)
              ++ [⟨k, ReactiveState.lookupVal st.data k, v⟩]
            data := setKey st.data k v
            batchedUpdates := [⟨k, v, ReactiveState.lookupVal st.data k⟩]
            updateScheduled := true }, [Job.flushJob]) := by
      simp [ReactiveState.opStep, ReactiveState.callUpdate, hov,
        ReactiveState.update_eval st k v hval hmw, hbat, hs]
    have hturn : ReactiveState.turnRun st [ROp.update k v] =
        ReactiveState.flushUpdates ({ st with
            history := (if st.maxHistorySize ≤ st.history.length then
                st.history.drop 1 else st.history)
              ++ [⟨k, ReactiveState.lookupVal st.data k, v⟩]
            data := setKey st.data k v
            batchedUpdates := [⟨k, v, ReactiveState.lookupVal st.data k⟩]
            updateScheduled := true }) := by
      simp only [ReactiveState.turnRun, ReactiveState.runOps, hop]
      simp [ReactiveState.drainJobs, ReactiveState.processJob]
    have hflush : ReactiveState.turnRun st [ROp.update k v] =
        (ReactiveState.invalidateComputedProperties ({ st with
            history := (if st.maxHistorySize ≤ st.history.length then
                st.history.drop 1 else st.history)
              ++ [⟨k, ReactiveState.lookupVal st.data k, v⟩]
            data := setKey st.data k v
            batchedUpdates := []
            updateScheduled := false }) k,
          [[⟨k, v, ReactiveState.lookupVal st.data k⟩]]) := by
      rw [hturn]
      simp [ReactiveState.flushUpdates, ReactiveState.invalidateComputedProperties]
    have hcacheNone : lookupOpt
        ((ReactiveState.turnRun st [ROp.update k v]).1).computedCache name = none := by
      rw [hflush]
      simp only [ReactiveState.invalidateComputedProperties]
      refine lookupOpt_filter_none _ _ _ ?_
      intro v2
      cases hdeps : lookupOpt st.dependencies name with
      | none =>
        unfold ReactiveState.depsOf at hdep
        rw [hdeps] at hdep
        simp at hdep
      | some ds =>
        unfold ReactiveState.depsOf at hdep
        rw [hdeps] at hdep
        simp only [Option.getD_some] at hdep
        simp only [hdeps]
        simp [hdep]
    refine ⟨hcacheNone, ?_, ?_⟩
    · rw [hflush]
      simp only [ReactiveState.invalidateComputedProperties]
      exact lookupOpt_setKey_self _ _ _
    · have hdefs2 : lookupOpt
          ((ReactiveState.turnRun st [ROp.update k v]).1).computedDefs name = some e := by
        rw [hflush]
        simpa [ReactiveState.invalidateComputedProperties] using hdfn
      have hspec := ReactiveState.evalExp_spec e
        { (ReactiveState.turnRun st [ROp.update k v]).1 with
          currentComputed := some name } name rfl
      simp only [ReactiveState.readComputed, hdefs2, hcacheNone]
      exact hspec.2.2.2.2.1

/-- Witness for C2's amended theorem: a concrete computed `c = a` read once,
then `update('a', 1)` plus its flush: the cache entry is invalidated and the
re-read recomputes from the new data. -/
theorem c2_amended_computed_invalidation_witness :
    let st1 := ReactiveState.computed (createState [("a", Value.vnum 0)]) "c"
      (CompExp.readKey "a")
    let st2 := (ReactiveState.readComputed st1 "c").2
    ("a" ∈ ReactiveState.depsOf (ReactiveState.readComputed st1 "c").2 "c") ∧
    lookupOpt ((ReactiveState.turnRun st2
      [ROp.update "a" (Value.vnum 1)]).1).computedCache "c" = none ∧
    lookupOpt ((ReactiveState.turnRun st2
      [ROp.update "a" (Value.vnum 1)]).1).data "a" = some (Value.vnum 1) ∧
    (ReactiveState.readComputed
        (ReactiveState.turnRun st2 [ROp.update "a" (Value.vnum 1)]).1 "c").1 =
      ReactiveState.evalPure (CompExp.readKey "a")
        ((ReactiveState.turnRun st2 [ROp.update "a" (Value.vnum 1)]).1).data := by
  intro st1 st2
  obtain ⟨h1, h2, h3⟩ := c2_amended_computed_invalidation.2 st2 "c" "a"
    (CompExp.readKey "a") (Value.vnum 1) rfl (by decide) rfl rfl rfl rfl rfl
  exact ⟨c2_amended_computed_invalidation.1 st1 "c" (CompExp.readKey "a")
    rfl rfl "a" (by decide), h1, h2, h3⟩

/-- C6 counterexample: the claim says all updates in one synchronous turn —
whether via `update` or `updateBatch` — coalesce into exactly one listener
notification.  Each `updateBatch` call runs `notifyListeners` itself, which
queues its own delivery microtask, so two `updateBatch` calls in one turn
deliver two notifications, not one. -/
theorem c6_counterexample_two_updateBatch_notifications :
    let st0 := createState [("a", Value.vnum 0)]
    (ReactiveState.turnRun st0 [ROp.updateBatch [("a", Value.vnum 1)],
      ROp.updateBatch [("a", Value.vnum 2)]]).2.length = 2 ∧
    (ReactiveState.turnRun st0 [ROp.updateBatch [("a", Value.vnum 1)],
      ROp.updateBatch [("a", Value.vnum 2)]]).2.length ≠ 1 := by
  exact ⟨rfl, by decide⟩

/-- C6 amended: updates issued through `update` within one synchronous turn
do coalesce into exactly one notification (the single scheduled flush);
for a key written several times the data map delivered at the flush holds
the last write, and every individual `update` appends its own history entry
in call order (below the history cap).  `updateBatch` is excluded: each
call notifies separately (see the counterexample). -/
theorem c6_amended_update_coalescing :
    ∀ (st : ReactiveState) (k : String) (v : Value)
      (rest : List (String × Value)),
    st.validation = [] → st.middleware = [] → st.updateOverridden = false →
    st.updateScheduled = false → st.batchedUpdates = [] →
    st.history.length + (rest.length + 1) ≤ st.maxHistorySize →
    (ReactiveState.turnRun st (((k, v) :: rest).map fun kv =>
        ROp.update kv.1 kv.2)).2.length = 1 ∧
    (∀ k2 v2, lastWrite ((k, v) :: rest) k2 = some v2 →
      lookupOpt ((ReactiveState.turnRun st (((k, v) :: rest).map fun kv =>
        ROp.update kv.1 kv.2)).1).data k2 = some v2) ∧
    ((ReactiveState.turnRun st (((k, v) :: rest).map fun kv =>
        ROp.update kv.1 kv.2)).1).history.map
          (fun e => (e.property, e.newValue)) =
      st.history.map (fun e => (e.property, e.newValue)) ++ ((k, v) :: rest) := by
  intro st k v rest hval hmw hov hs hbat hcap
  have hlen : ¬ st.maxHistorySize ≤ st.history.length := by omega
  have hop : ReactiveState.opStep st (ROp.update k v) =
      ({ st with
          history := st.history ++ [⟨k, ReactiveState.lookupVal st.data k, v⟩]
          data := setKey st.data k v
          batchedUpdates := [⟨k, v, ReactiveState.lookupVal st.data k⟩]
          updateScheduled := true }, [Job.flushJob]) := by
    simp [ReactiveState.opStep, ReactiveState.callUpdate, hov,
      ReactiveState.update_eval st k v hval hmw, hbat, hs, hlen]
  obtain ⟨hi1, hi2, hi3, hi4, hi5, hi6, hi7, hi8, hi9, hi10⟩ :=
    ReactiveState.runUpdates_inv rest
      ({ st with
          history := st.history ++ [⟨k, ReactiveState.lookupVal st.data k, v⟩]
          data := setKey st.data k v
          batchedUpdates := [⟨k, v, ReactiveState.lookupVal st.data k⟩]
          updateScheduled := true })
      hval hmw hov rfl (by simp; omega)
  have hrun : ReactiveState.runOps st (((k, v) :: rest).map fun kv =>
      ROp.update kv.1 kv.2) =
      ((ReactiveState.runOps ({ st with
          history := st.history ++ [⟨k, ReactiveState.lookupVal st.data k, v⟩]
          data := setKey st.data k v
          batchedUpdates := [⟨k, v, ReactiveState.lookupVal st.data k⟩]
          updateScheduled := true }) (rest.map fun kv => ROp.update kv.1 kv.2)).1,
        [Job.flushJob]) := by
    simp only [List.map_cons, ReactiveState.runOps, hop]
    rw [hi1]
    simp
  have hbatlen : ¬ ((ReactiveState.runOps ({ st with
      history := st.history ++ [⟨k, ReactiveState.lookupVal st.data k, v⟩]
      data := setKey st.data k v
      batchedUpdates := [⟨k, v, ReactiveState.lookupVal st.data k⟩]
      updateScheduled := true }) (rest.map fun kv =>
        ROp.update kv.1 kv.2)).1).batchedUpdates = [] := by
    intro hnil
    rw [hnil] at hi5
    simp only [List.length_nil, List.length_cons] at hi5
    omega
  obtain ⟨hf1, hf2, hf3, _, _, _, _⟩ := ReactiveState.flushUpdates_spec _ hbatlen
  have hturn : ReactiveState.turnRun st (((k, v) :: rest).map fun kv =>
      ROp.update kv.1 kv.2) =
      ReactiveState.flushUpdates ((ReactiveState.runOps ({ st with
        history := st.history ++ [⟨k, ReactiveState.lookupVal st.data k, v⟩]
        data := setKey st.data k v
        batchedUpdates := [⟨k, v, ReactiveState.lookupVal st.data k⟩]
        updateScheduled := true }) (rest.map fun kv => ROp.update kv.1 kv.2)).1) := by
    simp only [ReactiveState.turnRun, hrun]
    simp [ReactiveState.drainJobs, ReactiveState.processJob]
  refine ⟨?_, ?_, ?_⟩
  · rw [hturn, hf1]
    rfl
  · intro k2 v2 hlw
    rw [hturn]
    rw [hf2, hi2]
    have happ : applyWrites (setKey st.data k v) rest =
        applyWrites st.data ((k, v) :: rest) := rfl
    rw [happ, lookup_applyWrites, hlw]
  · rw [hturn, hf3, hi3]
    simp

/-- Witness for C6's amended theorem: three `update` calls in one turn on
`{a: 0}` — one notification, `a` delivered as its last write 2, `b` as 3,
and three history entries in call order. -/
theorem c6_amended_update_coalescing_witness :
    let st0 := createState [("a", Value.vnum 0)]
    let ops := ([("a", Value.vnum 1), ("a", Value.vnum 2),
      ("b", Value.vnum 3)] : List (String × Value))
    (ReactiveState.turnRun st0 (ops.map fun kv =>
      ROp.update kv.1 kv.2)).2.length = 1 ∧
    lookupOpt ((ReactiveState.turnRun st0 (ops.map fun kv =>
      ROp.update kv.1 kv.2)).1).data "a" = some (Value.vnum 2) ∧
    lookupOpt ((ReactiveState.turnRun st0 (ops.map fun kv =>
      ROp.update kv.1 kv.2)).1).data "b" = some (Value.vnum 3) ∧
    ((ReactiveState.turnRun st0 (ops.map fun kv =>
      ROp.update kv.1 kv.2)).1).history.map (fun e => (e.property, e.newValue)) =
      [("a", Value.vnum 1), ("a", Value.vnum 2), ("b", Value.vnum 3)] := by
  intro st0 ops
  obtain ⟨h1, h2, h3⟩ := c6_amended_update_coalescing st0 "a" (Value.vnum 1)
    [("a", Value.vnum 2), ("b", Value.vnum 3)] rfl rfl rfl rfl rfl (by decide)
  exact ⟨h1, h2 "a" (Value.vnum 2) rfl, h2 "b" (Value.vnum 3) rfl,
    by simpa using h3⟩

/-- C7: a transaction whose function writes and then raises rolls the whole
data map back to its pre-transaction snapshot (the raised error propagating
out), leaving the history untouched; on success the captured writes are
applied as one `updateBatch` — each written key holds its last written
value, every other key is unchanged, and no history entries are added. -/
theorem c7_transaction_rollback_and_commit :
    ∀ (st : ReactiveState) (fn : List ReactiveState.TxAct),
    (∀ msg, ReactiveState.raisesOf fn = some msg →
      (ReactiveState.transaction st fn).1 = some msg ∧
      (ReactiveState.transaction st fn).2.1.data = st.data ∧
      (ReactiveState.transaction st fn).2.1.history = st.history ∧
      (ReactiveState.transaction st fn).2.2 = []) ∧
    (ReactiveState.raisesOf fn = none →
      (ReactiveState.transaction st fn).1 = none ∧
      (∀ k v, lastWrite (ReactiveState.writesOf fn) k = some v →
        lookupOpt (ReactiveState.transaction st fn).2.1.data k = some v) ∧
      (∀ k, lastWrite (ReactiveState.writesOf fn) k = none →
        lookupOpt (ReactiveState.transaction st fn).2.1.data k =
          lookupOpt st.data k) ∧
      (ReactiveState.transaction st fn).2.1.history = st.history) := by
  intro st fn
  constructor
  · intro msg hra
    obtain ⟨dmid, hb⟩ := (ReactiveState.txBody_spec fn
      { st with updateOverridden := true } []).2 msg hra
    have htr : ReactiveState.transaction st fn =
        (some msg, { st with updateOverridden := true, data := st.data }, []) := by
      simp [ReactiveState.transaction, hb, cloneData_id]
    rw [htr]
    exact ⟨rfl, rfl, rfl, rfl⟩
  · intro hra
    have hb := (ReactiveState.txBody_spec fn
      { st with updateOverridden := true } []).1 hra
    have hnodup : ((applyWrites [] (ReactiveState.writesOf fn)).map
        Prod.fst).Nodup :=
      applyWrites_nodup_keys _ [] (by simp)
    have hpt : ∀ k v, lookupOpt (applyWrites [] (ReactiveState.writesOf fn)) k =
        some v →
        ReactiveState.lookupVal (applyWrites st.data
          (ReactiveState.writesOf fn)) k = v := by
      intro k v hkv
      rw [lookup_applyWrites] at hkv
      cases hl : lastWrite (ReactiveState.writesOf fn) k with
      | none => rw [hl] at hkv; simp [lookupOpt] at hkv
      | some w =>
        rw [hl] at hkv
        simp only [Option.some.injEq] at hkv
        subst hkv
        unfold ReactiveState.lookupVal
        rw [lookup_applyWrites, hl]
        rfl
    have hskip := ReactiveState.updateBatchLoop_skip
      (applyWrites [] (ReactiveState.writesOf fn))
      { st with data := applyWrites st.data (ReactiveState.writesOf fn) } []
      hnodup (by intro k v h; exact hpt k v h)
    have hub : ReactiveState.updateBatch
        { st with data := applyWrites st.data (ReactiveState.writesOf fn) }
        (applyWrites [] (ReactiveState.writesOf fn)) =
        ({ st with data := applyWrites st.data (ReactiveState.writesOf fn) },
          []) := by
      unfold ReactiveState.updateBatch
      rw [hskip]
      simp
    have htr : ReactiveState.transaction st fn =
        (none, { st with data := applyWrites st.data (ReactiveState.writesOf fn) },
          []) := by
      simp only [ReactiveState.transaction, hb]
      simp only [List.nil_append]
      have hbatch : (ReactiveState.writesOf fn).foldl
          (fun acc kv => setKey acc kv.1 kv.2) [] =
          applyWrites [] (ReactiveState.writesOf fn) := rfl
      rw [hbatch, hub]
    rw [htr]
    refine ⟨rfl, ?_, ?_, rfl⟩
    · intro k v hlw
      show lookupOpt (applyWrites st.data (ReactiveState.writesOf fn)) k = some v
      rw [lookup_applyWrites, hlw]
    · intro k hlw
      show lookupOpt (applyWrites st.data (ReactiveState.writesOf fn)) k =
        lookupOpt st.data k
      rw [lookup_applyWrites, hlw]

/-- Witness for C7 at concrete transactions on `{x: 0, y: 9}`: a raising
body rolls `x` back to 0 and propagates `boom`; a successful body leaves
`x = 2` (last write wins) and `y = 9`. -/
theorem c7_transaction_rollback_and_commit_witness :
    let st0 := createState [("x", Value.vnum 0), ("y", Value.vnum 9)]
    let bad := [ReactiveState.TxAct.upd "x" (Value.vnum 1),
      ReactiveState.TxAct.raise "boom"]
    let good := [ReactiveState.TxAct.upd "x" (Value.vnum 1),
      ReactiveState.TxAct.upd "x" (Value.vnum 2)]
    (ReactiveState.transaction st0 bad).1 = some "boom" ∧
    (ReactiveState.transaction st0 bad).2.1.data = st0.data ∧
    (ReactiveState.transaction st0 good).1 = none ∧
    lookupOpt (ReactiveState.transaction st0 good).2.1.data "x" =
      some (Value.vnum 2) ∧
    lookupOpt (ReactiveState.transaction st0 good).2.1.data "y" =
      some (Value.vnum 9) ∧
    (ReactiveState.transaction st0 good).2.1.history = st0.history := by
  intro st0 bad good
  obtain ⟨hb1, hb2, _, _⟩ :=
    (c7_transaction_rollback_and_commit st0 bad).1 "boom" rfl
  obtain ⟨hg1, hg2, hg3, hg4⟩ :=
    (c7_transaction_rollback_and_commit st0 good).2 rfl
  exact ⟨hb1, hb2, hg1, hg2 "x" (Value.vnum 2) rfl,
    hg3 "y" rfl, hg4⟩

/-- C9: from a freshly constructed state (cap 50) the history length never
exceeds 50 over any sequence of operations, and a successful update arriving
with the history at (or past) the cap first evicts the oldest entry: the new
history is the old one minus its head, plus the new entry for the updated
key. -/
theorem c9_history_bounded_and_fifo_eviction :
    (∀ (init : List (String × Value)) (ops : List ROp),
      ((ReactiveState.runOps (createState init) ops).1).history.length ≤ 50) ∧
    (∀ (st : ReactiveState) (k : String) (v : Value) (pv : Value),
      st.updateOverridden = false →
      st.maxHistorySize ≤ st.history.length →
      ReactiveState.validateProperty st k v = none →
      ReactiveState.applyMiddleware st.middleware k v
        (ReactiveState.lookupVal st.data k) st.data = Except.ok pv →
      (ReactiveState.callUpdate st k v).2.1.history =
        st.history.drop 1 ++
          [⟨k, cloneDeep (ReactiveState.lookupVal st.data k), cloneDeep pv⟩]) := by
  constructor
  · intro init ops
    exact (ReactiveState.runOps_history_bound ops (createState init)
      (by simp [createState]) (by simp [createState])).2
  · intro st k v pv hov hcap hv hm
    have hov2 : ¬ st.updateOverridden = true := by
      rw [hov]
      exact Bool.false_ne_true
    unfold ReactiveState.callUpdate ReactiveState.update
    simp only [if_neg hov2, hv, hm]
    split <;> simp [hcap]

/-- Witness for C9: a state whose history already holds 50 entries evicts
the oldest on the next update of `x` (no validators, no middleware), and a
concrete run from a fresh state keeps the bound. -/
theorem c9_history_bounded_and_fifo_eviction_witness :
    let stFull : ReactiveState :=
      { createState [("x", Value.vnum 0)] with
        history := List.replicate 50 ⟨"old", Value.vnum 0, Value.vnum 0⟩ }
    ((ReactiveState.runOps (createState [("x", Value.vnum 0)])
      [ROp.update "x" (Value.vnum 1), ROp.undo]).1).history.length ≤ 50 ∧
    (ReactiveState.callUpdate stFull "x" (Value.vnum 1)).2.1.history =
      (List.replicate 50 (⟨"old", Value.vnum 0, Value.vnum 0⟩ : HistEntry)).drop 1
        ++ [⟨"x", cloneDeep (ReactiveState.lookupVal stFull.data "x"),
          cloneDeep (Value.vnum 1)⟩] := by
  intro stFull
  refine ⟨c9_history_bounded_and_fifo_eviction.1 [("x", Value.vnum 0)]
    [ROp.update "x" (Value.vnum 1), ROp.undo], ?_⟩
  exact c9_history_bounded_and_fifo_eviction.2 stFull "x" (Value.vnum 1)
    (Value.vnum 1) rfl (by simp [createState]) rfl rfl

/-- C10: after `transaction(fn)` with a raising `fn`, the catch block does
not restore `this.update`, so the collecting replacement stays installed:
every later `update(key, value)` on the instance writes the data map
directly and returns without validating, running middleware, appending a
history entry, or scheduling a notification. -/
theorem c10_failed_transaction_leaves_update_replaced :
    ∀ (st : ReactiveState) (fn : List ReactiveState.TxAct) (msg : String),
    ReactiveState.raisesOf fn = some msg →
    ((ReactiveState.transaction st fn).2.1).updateOverridden = true ∧
    (∀ k v, ReactiveState.callUpdate ((ReactiveState.transaction st fn).2.1) k v =
      (none, { (ReactiveState.transaction st fn).2.1 with
        data := setKey ((ReactiveState.transaction st fn).2.1).data k v },
        [])) := by
  intro st fn msg hra
  obtain ⟨dmid, hb⟩ := (ReactiveState.txBody_spec fn
    { st with updateOverridden := true } []).2 msg hra
  have htr : ReactiveState.transaction st fn =
      (some msg, { st with updateOverridden := true, data := st.data }, []) := by
    simp [ReactiveState.transaction, hb, cloneData_id]
  rw [htr]
  exact ⟨rfl, fun k v => rfl⟩

/-- Witness for C10: after a failed transaction on a state whose (only)
validator for `x` always fails, a subsequent `update('x', 7)` nevertheless
succeeds silently, writing 7 with no history entry and no scheduled flush. -/
theorem c10_failed_transaction_leaves_update_replaced_witness :
    let st0 : ReactiveState :=
      ⟨[("x", Value.vnum 0)], [], [], [],
        [("x", [⟨fun _ => Except.ok false, "always invalid"⟩])],
        [], [], 50, [], false, none, false⟩
    let bad := [ReactiveState.TxAct.upd "x" (Value.vnum 1),
      ReactiveState.TxAct.raise "boom"]
    ((ReactiveState.transaction st0 bad).2.1).updateOverridden = true ∧
    ReactiveState.callUpdate ((ReactiveState.transaction st0 bad).2.1) "x"
        (Value.vnum 7) =
      (none, { (ReactiveState.transaction st0 bad).2.1 with
        data := setKey ((ReactiveState.transaction st0 bad).2.1).data "x"
          (Value.vnum 7) }, []) := by
  intro st0 bad
  obtain ⟨h1, h2⟩ :=
    c10_failed_transaction_leaves_update_replaced st0 bad "boom" rfl
  exact ⟨h1, h2 "x" (Value.vnum 7)⟩
